import Mathlib

set_option linter.unusedSectionVars false

/-
Shallow embedding of the `comm` Rust channel library and proofs about it.

The library implements eight channel flavors (SPSC one-slot, SPSC bounded
ring, SPSC unbounded list, SPSC overwriting ring buffer, SPMC bounded,
SPMC unbounded, MPSC unbounded, MPMC bounded) plus a readiness
multiplexer (`Select`).  Each flavor's `Packet` is embedded below as a
Lean structure holding exactly the fields its verified operations read
and write; the sequential (single-thread-at-a-time) semantics of every
operation is translated directly from the Rust source in `src/src/...`.
Machine integers (`usize`, the MPMC `HalfPointer`) are modelled as `Nat`
together with explicit `% 2^64` / `% 2^32` wrapping where the Rust code
wraps.  Condition-variable sleeping and thread parking are modelled by
explicit interleaving machines where a claim requires them; operations
that merely notify sleepers have those notifications omitted from the
purely sequential models, since they do not change the packet payload
state.
-/

namespace Comm

/-! ## Machine-integer arithmetic

`usize` is 64 bits wide (`target_pointer_width = "64"`), `HalfPointer`
is `u32` (`src/src/mpmc/bounded/imp.rs` lines 16-21). -/

/-- USIZE is the modulus of the 64-bit `usize` type. -/
def USIZE : Nat := 2 ^ 64

/-- HPBITS mirrors `HALF_POINTER_BITS = usize::BITS / 2` on a 64-bit build. -/
def HPBITS : Nat := 32

/-- HP is the modulus of the `HalfPointer` (`u32`) type. -/
def HP : Nat := 2 ^ HPBITS

/-- Wrapping subtraction `a - b` at modulus `w`, as performed by Rust's
release-mode integer subtraction on `usize` / `u32` operands. -/
def wsub (w a b : Nat) : Nat := (a % w + (w - b % w)) % w

theorem wsub_eq_sub (w a b : Nat) (hw : 0 < w) (hba : b ≤ a) (hlt : a - b < w) :
    wsub w a b = a - b := by
  unfold wsub
  obtain ⟨d, rfl⟩ : ∃ d, a = b + d := ⟨a - b, by omega⟩
  have hd : d < w := by omega
  have h1 : b % w + w * (b / w) = b := Nat.mod_add_div b w
  have hbw : b % w < w := Nat.mod_lt _ hw
  have h2 : w * (b / w + 1) = w * (b / w) + w := by ring
  calc ((b + d) % w + (w - b % w)) % w
      = (b + d + (w - b % w)) % w := by rw [Nat.mod_add_mod]
    _ = (d + w * (b / w + 1)) % w := by congr 1; omega
    _ = d % w := Nat.add_mul_mod_self_left d w (b / w + 1)
    _ = d := Nat.mod_eq_of_lt hd
    _ = b + d - b := by omega

/-- Two monotone counters whose distance is below the modulus have equal
residues exactly when they are equal. -/
theorem mod_eq_mod_iff_of_close (w a b : Nat) (hw : 0 < w) (hba : b ≤ a)
    (hlt : a - b < w) : a % w = b % w ↔ a = b := by
  constructor
  · intro h
    obtain ⟨d, rfl⟩ : ∃ d, a = b + d := ⟨a - b, by omega⟩
    have hd : d < w := by omega
    have hbw : b % w < w := Nat.mod_lt _ hw
    have hadd : (b + d) % w = (b % w + d) % w := by
      rw [Nat.add_mod, Nat.mod_eq_of_lt hd]
    rcases Nat.lt_or_ge (b % w + d) w with hlt2 | hge2
    · rw [hadd, Nat.mod_eq_of_lt hlt2] at h
      omega
    · rw [hadd, Nat.mod_eq_sub_mod hge2, Nat.mod_eq_of_lt (by omega)] at h
      omega
  · intro h; rw [h]

/-- Composing disjoint low and high halves by bitwise or is addition. -/
theorem lor_shiftLeft_eq_add (l h n : Nat) (hl : l < 2 ^ n) :
    l ||| (h <<< n) = l + h * 2 ^ n := by
  apply Nat.eq_of_testBit_eq
  intro i
  rw [Nat.testBit_lor, Nat.testBit_shiftLeft, Nat.add_comm l (h * 2 ^ n),
    Nat.mul_comm h (2 ^ n), Nat.testBit_mul_pow_two_add h hl]
  rcases Nat.lt_or_ge i n with hi | hi
  · simp [hi, Nat.not_le.2 hi]
  · have : l.testBit i = false :=
      Nat.testBit_lt_two_pow (lt_of_lt_of_le hl (Nat.pow_le_pow_right (by norm_num) hi))
    simp [this, hi, Nat.not_lt.2 hi]

/-- Masking with an all-ones mask is reduction modulo the power of two.
This is how `pos & cap_mask` indexes ring buffers whose capacity is a
power of two. -/
theorem land_two_pow_sub_one (n k : Nat) : n &&& (2 ^ k - 1) = n % 2 ^ k := by
  apply Nat.eq_of_testBit_eq
  intro i
  simp only [Nat.testBit_and, Nat.testBit_mod_two_pow, Nat.testBit_two_pow_sub_one]
  cases Nat.decLt i k with
  | isTrue h => simp [h]
  | isFalse h => simp [h]

/-! ## Rust `next_power_of_two`

`usize::next_power_of_two` returns the smallest power of two that is
greater than or equal to the argument (1 for 0).  The fuel-based
formulation below is structurally recursive so that concrete instances
reduce inside the kernel. -/

def nextPow2Go (n power fuel : Nat) : Nat :=
  match fuel with
  | 0 => power
  | fuel + 1 => if n ≤ power then power else nextPow2Go n (power * 2) fuel

/-- Smallest power of two at least `n`; `nextPow2 0 = 1`, matching Rust. -/
def nextPow2 (n : Nat) : Nat := nextPow2Go n 1 n

theorem nextPow2Go_two_pow (e j fuel : Nat) (hj : j ≤ e) (hfuel : e - j ≤ fuel) :
    nextPow2Go (2 ^ e) (2 ^ j) fuel = 2 ^ e := by
  induction fuel generalizing j with
  | zero =>
    have : j = e := by omega
    subst this
    rfl
  | succ fuel ih =>
    unfold nextPow2Go
    rcases Nat.eq_or_lt_of_le hj with rfl | hlt
    · simp
    · have hnle : ¬ 2 ^ e ≤ 2 ^ j := by
        simp only [Nat.not_le]
        exact Nat.pow_lt_pow_right (by norm_num) hlt
      simp only [hnle, if_false]
      have : 2 ^ j * 2 = 2 ^ (j + 1) := by rw [Nat.pow_succ]
      rw [this]
      exact ih (j + 1) hlt (by omega)

/-- The accumulator of `nextPow2Go` never shrinks. -/
theorem le_nextPow2Go (n power fuel : Nat) : power ≤ nextPow2Go n power fuel := by
  induction fuel generalizing power with
  | zero => exact Nat.le_refl _
  | succ fuel ih =>
    unfold nextPow2Go
    by_cases h : n ≤ power
    · simp [h]
    · simp only [h, if_false]
      exact Nat.le_trans (by omega) (ih (power * 2))

/-- Rounded-up capacities are positive. -/
theorem nextPow2_pos (n : Nat) : 0 < nextPow2 n := le_nextPow2Go n 1 n

/-- Wrapping subtraction only depends on the residues of its arguments. -/
theorem wsub_mod_args (w a b : Nat) : wsub w (a % w) (b % w) = wsub w a b := by
  unfold wsub
  rw [Nat.mod_mod_of_dvd a dvd_rfl, Nat.mod_mod_of_dvd b dvd_rfl]

/-- Powers of two are fixed points of `nextPow2`. -/
theorem nextPow2_two_pow (e : Nat) : nextPow2 (2 ^ e) = 2 ^ e := by
  unfold nextPow2
  have h1 : (1 : Nat) = 2 ^ 0 := rfl
  rw [h1]
  exact nextPow2Go_two_pow e 0 (2 ^ e) (Nat.zero_le e) (by
    have := Nat.lt_two_pow e
    omega)

/-! ## The error enumeration (`src/src/lib.rs` lines 112-117). -/

inductive Error where
  | Disconnected
  | Full
  | Empty
  | Deadlock
deriving DecidableEq, Repr

end Comm

deriving instance DecidableEq for Except

namespace Comm

/-- Result test shared by the operation-counting semantics. -/
def exceptOk {ε β : Type} (e : Except ε β) : Bool :=
  match e with
  | .ok _ => true
  | .error _ => false

/-! ## SPSC bounded ring (`src/src/spsc/bounded/imp.rs`)

The packet fields modelled are the buffer, the two monotone `usize`
positions and the two disconnect flags.  The sleeper block
(`have_sleeping`, mutex, condvar) and the wait queue only wake other
threads and are not part of the payload semantics of the non-blocking
operations verified here. -/

namespace SpscBounded

structure Packet (α : Type) where
  cap_mask : Nat
  buf : List α
  read_pos : Nat
  write_pos : Nat
  sender_disconnected : Bool
  receiver_disconnected : Bool
deriving DecidableEq, Repr

variable {α : Type} [Inhabited α]

/-- Packet construction (`Packet::new`): the capacity is rounded up to a
power of two and an uninitialized buffer of that length is allocated
(modelled by `default` padding; slots are only read after being
written). -/
def new (α : Type) [Inhabited α] (buf_size : Nat) : Packet α :=
  let cap := nextPow2 buf_size
  { cap_mask := cap - 1
    buf := List.replicate cap default
    read_pos := 0
    write_pos := 0
    sender_disconnected := false
    receiver_disconnected := false }

def get_pos (s : Packet α) : Nat × Nat := (s.write_pos, s.read_pos)

/-- Non-blocking send (`Packet::send_async`, lines 132-154). -/
def send_async (s : Packet α) (val : α) : Except (α × Error) Unit × Packet α :=
  if s.receiver_disconnected then (.error (val, .Disconnected), s)
  else
    let wr := get_pos s
    if wsub USIZE wr.1 wr.2 = s.cap_mask + 1 then (.error (val, .Full), s)
    else
      (.ok (),
       { s with buf := s.buf.set (wr.1 &&& s.cap_mask) val
                write_pos := (wr.1 + 1) % USIZE })

/-- Non-blocking receive (`Packet::recv_async`, lines 181-199). -/
def recv_async (s : Packet α) : Except Error α × Packet α :=
  let wr := get_pos s
  if wr.1 = wr.2 then
    if s.sender_disconnected then (.error .Disconnected, s) else (.error .Empty, s)
  else
    (.ok (s.buf.getD (wr.2 &&& s.cap_mask) default),
     { s with read_pos := (wr.2 + 1) % USIZE })

/-- Sender drop (`disconnect_sender`, lines 115-121); the sleeping and
wait-queue notifications do not change the payload state. -/
def disconnect_sender (s : Packet α) : Packet α := { s with sender_disconnected := true }

/-- Receiver drop (`disconnect_receiver`, lines 107-112). -/
def disconnect_receiver (s : Packet α) : Packet α := { s with receiver_disconnected := true }

/-- Number of element destructors the packet destructor runs (the
`ptr::read` loop over `0..write_pos-read_pos` in `Drop::drop`,
lines 230-246). -/
def drop_count (s : Packet α) : Nat := wsub USIZE s.write_pos s.read_pos

/-- One channel-endpoint operation for whole-history statements. -/
inductive Op (α : Type) where
  | send (v : α)
  | recv
deriving DecidableEq, Repr

/-- Run a list of operations, returning the final state together with
the number of successful sends and successful receives. -/
def run (s : Packet α) : List (Op α) → Packet α × Nat × Nat
  | [] => (s, 0, 0)
  | .send v :: ops =>
    let r := send_async s v
    let rest := run r.2 ops
    (rest.1, (if exceptOk r.1 then 1 else 0) + rest.2.1, rest.2.2)
  | .recv :: ops =>
    let r := recv_async s
    let rest := run r.2 ops
    (rest.1, rest.2.1, (if exceptOk r.1 then 1 else 0) + rest.2.2)

/-- Invariant tying the stored wrapped positions to the ghost totals of
successful sends and receives. -/
def CtrInv (cm : Nat) (s : Packet α) (sends recvs : Nat) : Prop :=
  s.cap_mask = cm ∧ s.write_pos = sends % USIZE ∧ s.read_pos = recvs % USIZE ∧
  recvs ≤ sends ∧ sends ≤ recvs + (cm + 1)

end SpscBounded

end Comm

namespace Comm

namespace SpscBounded

variable {α : Type} [Inhabited α]

/-- Run `send_async` on each value in turn; the boolean records whether
every send succeeded. -/
def sendList (s : Packet α) : List α → Bool × Packet α
  | [] => (true, s)
  | v :: vs =>
    let r := send_async s v
    let rest := sendList r.2 vs
    (exceptOk r.1 && rest.1, rest.2)

/-- Run `recv_async` the given number of times, collecting the results. -/
def recvList (s : Packet α) : Nat → List (Except Error α) × Packet α
  | 0 => ([], s)
  | n + 1 =>
    let r := recv_async s
    let rest := recvList r.2 n
    (r.1 :: rest.1, rest.2)

/-- Store a run of values at consecutive buffer indices. -/
def writeSeq (b : List α) (n : Nat) : List α → List α
  | [] => b
  | v :: vs => writeSeq (b.set n v) (n + 1) vs

theorem writeSeq_length (vs : List α) (b : List α) (n : Nat) :
    (writeSeq b n vs).length = b.length := by
  induction vs generalizing b n with
  | nil => rfl
  | cons v vs ih => simp [writeSeq, ih, List.length_set]

theorem writeSeq_getD_lt (vs : List α) (b : List α) (n m : Nat) (d : α) (h : m < n) :
    (writeSeq b n vs).getD m d = b.getD m d := by
  induction vs generalizing b n with
  | nil => rfl
  | cons v vs ih =>
    rw [writeSeq, ih (b.set n v) (n + 1) (by omega)]
    simp [List.getD_eq_getElem?_getD, List.getElem?_set_ne (by omega : n ≠ m)]

theorem writeSeq_getD (vs : List α) (b : List α) (n j : Nat) (d : α)
    (hj : j < vs.length) (hlen : n + vs.length ≤ b.length) :
    (writeSeq b n vs).getD (n + j) d = vs.getD j d := by
  induction vs generalizing b n j with
  | nil => simp at hj
  | cons v vs ih =>
    match j with
    | 0 =>
      rw [writeSeq, writeSeq_getD_lt vs (b.set n v) (n + 1) (n + 0) d (by omega)]
      simp only [Nat.add_zero, List.getD_eq_getElem?_getD]
      rw [List.getElem?_set_self (by simp at hlen; omega)]
      simp
    | j + 1 =>
      rw [writeSeq, show n + (j + 1) = (n + 1) + j by omega,
        ih (b.set n v) (n + 1) j (by simp at hj; omega)
          (by simp [List.length_set]; simp at hlen; omega)]
      rfl

/-- One successful send from a canonical mid-fill state.  The capacity
is `2^e` with `e ≤ 63`, the consumer has not disconnected, nothing has
been received yet and `n` values have been sent. -/
theorem send_async_ok (e : Nat) (he : e ≤ 63) (s : Packet α) (v : α) (n : Nat)
    (hcm : s.cap_mask = 2 ^ e - 1) (hbuf : s.buf.length = 2 ^ e)
    (hr : s.read_pos = 0) (hw : s.write_pos = n) (hn : n < 2 ^ e)
    (hrd : s.receiver_disconnected = false) :
    send_async s v =
      (.ok (), { s with buf := s.buf.set n v, write_pos := n + 1 }) := by
  have hU : (2 : Nat) ^ e < USIZE := by
    have : (2 : Nat) ^ e ≤ 2 ^ 63 := Nat.pow_le_pow_right (by norm_num) he
    unfold USIZE; omega
  have hsub : wsub USIZE n 0 = n := by
    rw [wsub_eq_sub USIZE n 0 (by unfold USIZE; positivity) (Nat.zero_le n) (by omega)]
    omega
  have hmask : n &&& (2 ^ e - 1) = n := by
    rw [land_two_pow_sub_one, Nat.mod_eq_of_lt hn]
  have hmod : (n + 1) % USIZE = n + 1 := Nat.mod_eq_of_lt (by omega)
  have hp : (0 : Nat) < 2 ^ e := Nat.pos_pow_of_pos e (by norm_num)
  unfold send_async get_pos
  rw [hrd, hr, hw]
  simp only [Bool.false_eq_true, if_false, hsub, hcm, hmask, hmod]
  rw [if_neg (by omega)]

/-- One successful receive from a canonical drain state. -/
theorem recv_async_ok (e : Nat) (he : e ≤ 63) (s : Packet α) (r0 : Nat)
    (hcm : s.cap_mask = 2 ^ e - 1) (hr : s.read_pos = r0)
    (hlt : r0 < s.write_pos) (hwle : s.write_pos ≤ 2 ^ e) :
    recv_async s =
      (.ok (s.buf.getD r0 default), { s with read_pos := r0 + 1 }) := by
  have hU : (2 : Nat) ^ e < USIZE := by
    have : (2 : Nat) ^ e ≤ 2 ^ 63 := Nat.pow_le_pow_right (by norm_num) he
    unfold USIZE; omega
  have hmask : r0 &&& s.cap_mask = r0 := by
    rw [hcm, land_two_pow_sub_one, Nat.mod_eq_of_lt (by omega)]
  have hmod : (r0 + 1) % USIZE = r0 + 1 := Nat.mod_eq_of_lt (by omega)
  unfold recv_async get_pos
  rw [hr, if_neg (by omega), hmask, hmod]

end SpscBounded

end Comm

namespace Comm

namespace SpscBounded

variable {α : Type} [Inhabited α]

/-- Sending a list of values into a partially filled power-of-two ring
succeeds completely and lays the values down at consecutive indices. -/
theorem sendList_spec (e : Nat) (he : e ≤ 63) :
    ∀ (vs : List α) (s : Packet α) (n : Nat),
      s.cap_mask = 2 ^ e - 1 → s.buf.length = 2 ^ e → s.read_pos = 0 →
      s.write_pos = n → s.receiver_disconnected = false → n + vs.length ≤ 2 ^ e →
      sendList s vs =
        (true, { s with buf := writeSeq s.buf n vs, write_pos := n + vs.length }) := by
  intro vs
  induction vs with
  | nil =>
    intro s n hcm hbuf hr hw hrd hle
    simp [sendList, writeSeq, ← hw]
  | cons v vs ih =>
    intro s n hcm hbuf hr hw hrd hle
    have hn : n < 2 ^ e := by simp at hle; omega
    rw [sendList, send_async_ok e he s v n hcm hbuf hr hw hn hrd]
    have hstep := ih { s with buf := s.buf.set n v, write_pos := n + 1 }
      (n + 1) hcm (by simp [List.length_set, hbuf]) hr rfl hrd
      (by simp at hle ⊢; omega)
    simp only [hstep, exceptOk, writeSeq]
    simp [Nat.add_comm, Nat.add_assoc, Nat.add_left_comm]

/-- Draining `m` values laid down consecutively returns them in order. -/
theorem recvList_spec (e : Nat) (he : e ≤ 63) :
    ∀ (vals : List α) (s : Packet α) (r0 : Nat),
      s.cap_mask = 2 ^ e - 1 → s.read_pos = r0 →
      s.write_pos = r0 + vals.length → s.write_pos ≤ 2 ^ e →
      (∀ j, j < vals.length → s.buf.getD (r0 + j) default = vals.getD j default) →
      recvList s vals.length =
        (vals.map Except.ok, { s with read_pos := r0 + vals.length }) := by
  intro vals
  induction vals with
  | nil =>
    intro s r0 hcm hr hw hwle hvals
    simp [recvList, ← hr]
  | cons v vs ih =>
    intro s r0 hcm hr hw hwle hvals
    have hlt : r0 < s.write_pos := by simp at hw; omega
    simp only [List.length_cons]
    rw [recvList, recv_async_ok e he s r0 hcm hr hlt hwle]
    have hv0 : s.buf.getD r0 default = v := by
      have := hvals 0 (by simp)
      simpa using this
    have hstep := ih { s with read_pos := r0 + 1 } (r0 + 1) hcm rfl
      (by simp at hw ⊢; omega) hwle
      (by
        intro j hj
        have := hvals (j + 1) (by simp; omega)
        simpa [Nat.add_assoc, Nat.add_comm, Nat.add_left_comm] using this)
    simp only [hstep, hv0]
    simp [Nat.add_comm, Nat.add_assoc, Nat.add_left_comm]

end SpscBounded

end Comm

namespace Comm

namespace SpscBounded

variable {α : Type} [Inhabited α]

/-- Case analysis of one non-blocking send under the counter invariant:
either it succeeds and the send total rises, or it fails and the packet
is returned unchanged. -/
theorem bounded_send_async_cases (cm : Nat) (hcm : cm + 1 < USIZE) (s : Packet α)
    (sends recvs : Nat) (v : α) (h : CtrInv cm s sends recvs) :
    (exceptOk (send_async s v).1 = true ∧
      CtrInv cm (send_async s v).2 (sends + 1) recvs) ∨
    (exceptOk (send_async s v).1 = false ∧ (send_async s v).2 = s) := by
  obtain ⟨hmask, hw, hr, hle, hub⟩ := h
  have hU : (0 : Nat) < USIZE := by unfold USIZE; positivity
  by_cases hd : s.receiver_disconnected
  · right
    simp [send_async, hd, exceptOk]
  · have hws : wsub USIZE s.write_pos s.read_pos = sends - recvs := by
      rw [hw, hr, wsub_mod_args, wsub_eq_sub USIZE sends recvs hU hle (by omega)]
    by_cases hful : wsub USIZE s.write_pos s.read_pos = s.cap_mask + 1
    · right
      simp [send_async, hd, hful, exceptOk, get_pos]
    · left
      have hfulns : sends - recvs ≠ cm + 1 := by
        rw [hws, hmask] at hful; exact hful
      have hsend : send_async s v =
          (.ok (), { s with buf := s.buf.set (s.write_pos &&& s.cap_mask) v
                            write_pos := (s.write_pos + 1) % USIZE }) := by
        simp only [send_async, get_pos]
        rw [if_neg hd, if_neg hful]
      rw [hsend]
      refine ⟨rfl, ?_⟩
      unfold CtrInv
      refine ⟨hmask, ?_, hr, by omega, by omega⟩
      simp [hw, Nat.mod_add_mod]

/-- Case analysis of one non-blocking receive under the counter
invariant. -/
theorem bounded_recv_async_cases (cm : Nat) (hcm : cm + 1 < USIZE) (s : Packet α)
    (sends recvs : Nat) (h : CtrInv cm s sends recvs) :
    (exceptOk (recv_async s).1 = true ∧
      CtrInv cm (recv_async s).2 sends (recvs + 1)) ∨
    (exceptOk (recv_async s).1 = false ∧ (recv_async s).2 = s) := by
  obtain ⟨hmask, hw, hr, hle, hub⟩ := h
  have hU : (0 : Nat) < USIZE := by unfold USIZE; positivity
  have hiff : s.write_pos = s.read_pos ↔ sends = recvs := by
    rw [hw, hr]
    exact mod_eq_mod_iff_of_close USIZE sends recvs hU hle (by omega)
  by_cases hempty : s.write_pos = s.read_pos
  · right
    by_cases hsd : s.sender_disconnected <;>
      simp [recv_async, get_pos, hempty, hsd, exceptOk]
  · left
    have hlt : recvs < sends := by
      rcases Nat.lt_or_ge recvs sends with h1 | h1
      · exact h1
      · exact absurd (by omega : sends = recvs) (by rw [← hiff]; exact hempty)
    have hrecv : recv_async s =
        (.ok (s.buf.getD (s.read_pos &&& s.cap_mask) default),
         { s with read_pos := (s.read_pos + 1) % USIZE }) := by
      simp only [recv_async, get_pos]
      rw [if_neg hempty]
    rw [hrecv]
    refine ⟨rfl, ?_⟩
    unfold CtrInv
    refine ⟨hmask, hw, ?_, by omega, by omega⟩
    simp [hr, Nat.mod_add_mod]

/-- Whole-history preservation of the counter invariant, accumulating
the operation totals. -/
theorem bounded_run_ctrInv (cm : Nat) (hcm : cm + 1 < USIZE) :
    ∀ (ops : List (Op α)) (s : Packet α) (sends recvs : Nat),
      CtrInv cm s sends recvs →
      CtrInv cm (run s ops).1 (sends + (run s ops).2.1) (recvs + (run s ops).2.2) := by
  intro ops
  induction ops with
  | nil =>
    intro s sends recvs h
    simpa [run] using h
  | cons op ops ih =>
    intro s sends recvs h
    match op with
    | .send v =>
      rcases bounded_send_async_cases cm hcm s sends recvs v h with ⟨hok, hinv⟩ | ⟨hok, heq⟩
      · have := ih (send_async s v).2 (sends + 1) recvs hinv
        simp only [run, hok, if_true]
        have harith :
            sends + (1 + (run (send_async s v).2 ops).2.1) =
              sends + 1 + (run (send_async s v).2 ops).2.1 := by omega
        rw [harith]
        exact this
      · have := ih (send_async s v).2 sends recvs (by rw [heq]; exact h)
        simp only [run, hok, if_false]
        simpa using this
    | .recv =>
      rcases bounded_recv_async_cases cm hcm s sends recvs h with ⟨hok, hinv⟩ | ⟨hok, heq⟩
      · have := ih (recv_async s).2 sends (recvs + 1) hinv
        simp only [run, hok, if_true]
        have harith :
            recvs + (1 + (run (recv_async s).2 ops).2.2) =
              recvs + 1 + (run (recv_async s).2 ops).2.2 := by omega
        rw [harith]
        exact this
      · have := ih (recv_async s).2 sends recvs (by rw [heq]; exact h)
        simp only [run, hok, if_false]
        simpa using this

/-- After any operation history the packet destructor runs exactly
`sends - recvs` element destructors. -/
theorem bounded_drop_count_eq (bs : Nat) (hbs : nextPow2 bs < USIZE) (ops : List (Op α)) :
    (run (new α bs) ops).2.2 ≤ (run (new α bs) ops).2.1 ∧
    drop_count (run (new α bs) ops).1 =
      (run (new α bs) ops).2.1 - (run (new α bs) ops).2.2 := by
  have hpos := nextPow2_pos bs
  have hcm : (nextPow2 bs - 1) + 1 < USIZE := by omega
  have hinit : CtrInv (nextPow2 bs - 1) (new α bs) 0 0 := by
    refine ⟨rfl, rfl, rfl, Nat.le_refl 0, by omega⟩
  have hfin := bounded_run_ctrInv (nextPow2 bs - 1) hcm ops (new α bs) 0 0 hinit
  obtain ⟨hmask, hw, hr, hle, hub⟩ := hfin
  have hU : (0 : Nat) < USIZE := by unfold USIZE; positivity
  simp only [Nat.zero_add] at hw hr hle hub
  refine ⟨hle, ?_⟩
  unfold drop_count
  rw [hw, hr, wsub_mod_args,
    wsub_eq_sub USIZE _ _ hU hle (by omega)]

end SpscBounded

end Comm

namespace Comm

/-! ## SPSC overwriting ring buffer (`src/src/spsc/ring_buf/imp.rs`)

Same layout as the bounded SPSC ring; `send` never reports `Full`:
when the buffer is full the producer advances `read_pos` (by CAS; in
the sequential semantics the CAS succeeds) and hands the displaced
value back to the caller. -/

namespace SpscRingBuf

structure Packet (α : Type) where
  cap_mask : Nat
  buf : List α
  read_pos : Nat
  write_pos : Nat
  sender_disconnected : Bool
  receiver_disconnected : Bool
deriving DecidableEq, Repr

variable {α : Type} [Inhabited α]

/-- Packet construction (`Packet::new`, lines 43-76). -/
def new (α : Type) [Inhabited α] (buf_size : Nat) : Packet α :=
  let cap := nextPow2 buf_size
  { cap_mask := cap - 1
    buf := List.replicate cap default
    read_pos := 0
    write_pos := 0
    sender_disconnected := false
    receiver_disconnected := false }

def get_pos (s : Packet α) : Nat × Nat := (s.write_pos, s.read_pos)

/-- Send (`Packet::send`, lines 122-155).  The pair `old_read` holds
the displaced value (if any) and the resulting read position; the CAS
on `read_pos` succeeds in the sequential semantics.  The displaced
value is read out of the buffer before the new value is stored. -/
def send (s : Packet α) (val : α) : Except (α × Error) (Option α) × Packet α :=
  if s.receiver_disconnected then (.error (val, .Disconnected), s)
  else
    let wr := get_pos s
    let old_read : Option α × Nat :=
      if wsub USIZE wr.1 wr.2 ≠ s.cap_mask + 1 then (none, s.read_pos)
      else (some (s.buf.getD (wr.2 &&& s.cap_mask) default), (wr.2 + 1) % USIZE)
    (.ok old_read.1,
     { s with buf := s.buf.set (wr.1 &&& s.cap_mask) val
              read_pos := old_read.2
              write_pos := (wr.1 + 1) % USIZE })

/-- Non-blocking receive (`Packet::recv_async`, lines 157-182); the CAS
loop terminates on its first iteration in the sequential semantics. -/
def recv_async (s : Packet α) : Except Error α × Packet α :=
  let wr := get_pos s
  if wr.1 = wr.2 then
    if s.sender_disconnected then (.error .Disconnected, s) else (.error .Empty, s)
  else
    (.ok (s.buf.getD (wr.2 &&& s.cap_mask) default),
     { s with read_pos := (wr.2 + 1) % USIZE })

def disconnect_sender (s : Packet α) : Packet α := { s with sender_disconnected := true }

def disconnect_receiver (s : Packet α) : Packet α := { s with receiver_disconnected := true }

/-- Destructor count: the `ptr::read` loop over `0..write_pos-read_pos`
in `Drop::drop` (lines 210-226). -/
def drop_count (s : Packet α) : Nat := wsub USIZE s.write_pos s.read_pos

/-- Drain helper used by the end-to-end scenarios. -/
def recvList (s : Packet α) : Nat → List (Except Error α) × Packet α
  | 0 => ([], s)
  | n + 1 =>
    let r := recv_async s
    let rest := recvList r.2 n
    (r.1 :: rest.1, rest.2)

inductive Op (α : Type) where
  | send (v : α)
  | recv
deriving DecidableEq, Repr

/-- Whether the result of `send` signals a displaced (overwritten)
value. -/
def displacedOne {β : Type} (e : Except (β × Error) (Option β)) : Bool :=
  match e with
  | .ok (some _) => true
  | _ => false

/-- Run a history, counting successful sends, successful receives and
values displaced on overflow. -/
def run (s : Packet α) : List (Op α) → Packet α × Nat × Nat × Nat
  | [] => (s, 0, 0, 0)
  | .send v :: ops =>
    let r := send s v
    let rest := run r.2 ops
    (rest.1, (if exceptOk r.1 then 1 else 0) + rest.2.1, rest.2.2.1,
     (if displacedOne r.1 then 1 else 0) + rest.2.2.2)
  | .recv :: ops =>
    let r := recv_async s
    let rest := run r.2 ops
    (rest.1, rest.2.1, (if exceptOk r.1 then 1 else 0) + rest.2.2.1, rest.2.2.2)

/-- Counter invariant: `read_pos` advances once per receive and once
per displacement. -/
def CtrInv (cm : Nat) (s : Packet α) (sends recvs disp : Nat) : Prop :=
  s.cap_mask = cm ∧ s.write_pos = sends % USIZE ∧
  s.read_pos = (recvs + disp) % USIZE ∧
  recvs + disp ≤ sends ∧ sends ≤ recvs + disp + (cm + 1)

theorem send_cases (cm : Nat) (hcm : cm + 1 < USIZE) (s : Packet α)
    (sends recvs disp : Nat) (v : α) (h : CtrInv cm s sends recvs disp) :
    s.receiver_disconnected = false →
    (exceptOk (send s v).1 = true ∧
      ((displacedOne (send s v).1 = true ∧
          CtrInv cm (send s v).2 (sends + 1) recvs (disp + 1)) ∨
        (displacedOne (send s v).1 = false ∧
          CtrInv cm (send s v).2 (sends + 1) recvs disp))) := by
  intro hd
  obtain ⟨hmask, hw, hr, hle, hub⟩ := h
  have hU : (0 : Nat) < USIZE := by unfold USIZE; positivity
  have hws : wsub USIZE s.write_pos s.read_pos = sends - (recvs + disp) := by
    rw [hw, hr, wsub_mod_args, wsub_eq_sub USIZE sends (recvs + disp) hU hle (by omega)]
  by_cases hful : wsub USIZE s.write_pos s.read_pos ≠ s.cap_mask + 1
  · have hsend : send s v =
        (.ok none, { s with buf := s.buf.set (s.write_pos &&& s.cap_mask) v
                            read_pos := s.read_pos
                            write_pos := (s.write_pos + 1) % USIZE }) := by
      have hd2 : ¬ (s.receiver_disconnected = true) := by rw [hd]; simp
      simp only [send, get_pos]
      rw [if_neg hd2, if_pos hful]
    rw [hsend]
    have hlt : sends - (recvs + disp) ≠ cm + 1 := by
      rw [hws, hmask] at hful; exact hful
    refine ⟨rfl, Or.inr ⟨rfl, ?_⟩⟩
    unfold CtrInv
    refine ⟨hmask, ?_, hr, by omega, by omega⟩
    simp [hw, Nat.mod_add_mod]
  · have hful2 : wsub USIZE s.write_pos s.read_pos = s.cap_mask + 1 := by
      by_contra hcon
      exact hful hcon
    have hsend : send s v =
        (.ok (some (s.buf.getD (s.read_pos &&& s.cap_mask) default)),
         { s with buf := s.buf.set (s.write_pos &&& s.cap_mask) v
                  read_pos := (s.read_pos + 1) % USIZE
                  write_pos := (s.write_pos + 1) % USIZE }) := by
      have hd2 : ¬ (s.receiver_disconnected = true) := by rw [hd]; simp
      simp only [send, get_pos]
      rw [if_neg hd2, if_neg hful]
    rw [hsend]
    have heq : sends - (recvs + disp) = cm + 1 := by
      rw [hws, hmask] at hful2; exact hful2
    refine ⟨rfl, Or.inl ⟨rfl, ?_⟩⟩
    unfold CtrInv
    refine ⟨hmask, ?_, ?_, by omega, by omega⟩
    · simp [hw, Nat.mod_add_mod]
    · simp only [hr, Nat.mod_add_mod, Nat.add_assoc]

theorem ring_recv_async_cases (cm : Nat) (hcm : cm + 1 < USIZE) (s : Packet α)
    (sends recvs disp : Nat) (h : CtrInv cm s sends recvs disp) :
    (exceptOk (recv_async s).1 = true ∧
      CtrInv cm (recv_async s).2 sends (recvs + 1) disp) ∨
    (exceptOk (recv_async s).1 = false ∧ (recv_async s).2 = s) := by
  obtain ⟨hmask, hw, hr, hle, hub⟩ := h
  have hU : (0 : Nat) < USIZE := by unfold USIZE; positivity
  have hiff : s.write_pos = s.read_pos ↔ sends = recvs + disp := by
    rw [hw, hr]
    exact mod_eq_mod_iff_of_close USIZE sends (recvs + disp) hU hle (by omega)
  by_cases hempty : s.write_pos = s.read_pos
  · right
    by_cases hsd : s.sender_disconnected <;>
      simp [recv_async, get_pos, hempty, hsd, exceptOk]
  · left
    have hlt : recvs + disp < sends := by
      rcases Nat.lt_or_ge (recvs + disp) sends with h1 | h1
      · exact h1
      · exact absurd (by omega : sends = recvs + disp) (by rw [← hiff]; exact hempty)
    have hrecv : recv_async s =
        (.ok (s.buf.getD (s.read_pos &&& s.cap_mask) default),
         { s with read_pos := (s.read_pos + 1) % USIZE }) := by
      simp only [recv_async, get_pos]
      rw [if_neg hempty]
    rw [hrecv]
    refine ⟨rfl, ?_⟩
    unfold CtrInv
    refine ⟨hmask, hw, ?_, by omega, by omega⟩
    simp only [hr, Nat.mod_add_mod]
    congr 1
    omega

end SpscRingBuf

end Comm

namespace Comm

namespace SpscRingBuf

variable {α : Type} [Inhabited α]

theorem send_keeps_receiver_flag (s : Packet α) (v : α) :
    ((send s v).2).receiver_disconnected = s.receiver_disconnected := by
  simp only [send, get_pos]
  split <;> rfl

theorem recv_keeps_receiver_flag (s : Packet α) :
    ((recv_async s).2).receiver_disconnected = s.receiver_disconnected := by
  simp only [recv_async, get_pos]
  split
  · split <;> rfl
  · rfl

/-- Invariant for whole histories: counters plus a live consumer. -/
def RunInv (cm : Nat) (s : Packet α) (sends recvs disp : Nat) : Prop :=
  CtrInv cm s sends recvs disp ∧ s.receiver_disconnected = false

theorem ring_run_ctrInv (cm : Nat) (hcm : cm + 1 < USIZE) :
    ∀ (ops : List (Op α)) (s : Packet α) (sends recvs disp : Nat),
      RunInv cm s sends recvs disp →
      RunInv cm (run s ops).1 (sends + (run s ops).2.1)
        (recvs + (run s ops).2.2.1) (disp + (run s ops).2.2.2) := by
  intro ops
  induction ops with
  | nil =>
    intro s sends recvs disp h
    simpa [run] using h
  | cons op ops ih =>
    intro s sends recvs disp h
    obtain ⟨hctr, hflag⟩ := h
    match op with
    | .send v =>
      have hflag2 : ((send s v).2).receiver_disconnected = false := by
        rw [send_keeps_receiver_flag, hflag]
      obtain ⟨hok, hcases⟩ := send_cases cm hcm s sends recvs disp v hctr hflag
      rcases hcases with ⟨hdisp, hinv⟩ | ⟨hdisp, hinv⟩
      · have := ih (send s v).2 (sends + 1) recvs (disp + 1) ⟨hinv, hflag2⟩
        simp only [run, hok, hdisp, if_true]
        have h1 : sends + (1 + (run (send s v).2 ops).2.1) =
            sends + 1 + (run (send s v).2 ops).2.1 := by omega
        have h2 : disp + (1 + (run (send s v).2 ops).2.2.2) =
            disp + 1 + (run (send s v).2 ops).2.2.2 := by omega
        rw [h1, h2]
        exact this
      · have := ih (send s v).2 (sends + 1) recvs disp ⟨hinv, hflag2⟩
        simp only [run, hok, hdisp, if_true, if_false]
        have h1 : sends + (1 + (run (send s v).2 ops).2.1) =
            sends + 1 + (run (send s v).2 ops).2.1 := by omega
        rw [h1]
        simpa using this
    | .recv =>
      have hflag2 : ((recv_async s).2).receiver_disconnected = false := by
        rw [recv_keeps_receiver_flag, hflag]
      rcases ring_recv_async_cases cm hcm s sends recvs disp hctr with ⟨hok, hinv⟩ | ⟨hok, heq⟩
      · have := ih (recv_async s).2 sends (recvs + 1) disp ⟨hinv, hflag2⟩
        simp only [run, hok, if_true]
        have h1 : recvs + (1 + (run (recv_async s).2 ops).2.2.1) =
            recvs + 1 + (run (recv_async s).2 ops).2.2.1 := by omega
        rw [h1]
        exact this
      · have := ih (recv_async s).2 sends recvs disp (by rw [heq]; exact ⟨hctr, hflag⟩)
        simp only [run, hok, if_false]
        simpa using this

/-- After any operation history the packet destructor runs exactly
`sends - recvs - displaced` element destructors: a displaced value is
handed back to the sender, so it is not destroyed by the packet. -/
theorem ring_drop_count_eq (bs : Nat) (hbs : nextPow2 bs < USIZE) (ops : List (Op α)) :
    (run (new α bs) ops).2.2.1 + (run (new α bs) ops).2.2.2 ≤ (run (new α bs) ops).2.1 ∧
    drop_count (run (new α bs) ops).1 =
      (run (new α bs) ops).2.1 - (run (new α bs) ops).2.2.1 -
        (run (new α bs) ops).2.2.2 := by
  have hpos := nextPow2_pos bs
  have hcm : (nextPow2 bs - 1) + 1 < USIZE := by omega
  have hinit : RunInv (nextPow2 bs - 1) (new α bs) 0 0 0 := by
    exact ⟨⟨rfl, rfl, rfl, Nat.le_refl 0, by omega⟩, rfl⟩
  have hfin := ring_run_ctrInv (nextPow2 bs - 1) hcm ops (new α bs) 0 0 0 hinit
  obtain ⟨⟨hmask, hw, hr, hle, hub⟩, hflag⟩ := hfin
  have hU : (0 : Nat) < USIZE := by unfold USIZE; positivity
  simp only [Nat.zero_add] at hw hr hle hub
  refine ⟨hle, ?_⟩
  unfold drop_count
  rw [hw, hr, wsub_mod_args,
    wsub_eq_sub USIZE _ _ hU hle (by omega)]
  omega

end SpscRingBuf

end Comm

namespace Comm

/-! ## SPSC unbounded linked list (`src/src/spsc/unbounded/imp.rs`)

The linked list of nodes between `read_end` and `write_end` is
abstracted as the Lean list of the values those nodes carry, oldest
first; the trailing sentinel node (whose `next` is null and whose `val`
is `None`) is not represented.  `read_end.next == null` is exactly
`queue = []`. -/

namespace SpscUnbounded

structure Packet (α : Type) where
  queue : List α
  sender_disconnected : Bool
  receiver_disconnected : Bool
deriving DecidableEq, Repr

variable {α : Type}

/-- Packet construction (`Packet::new`): one empty sentinel node. -/
def new (α : Type) : Packet α :=
  { queue := [], sender_disconnected := false, receiver_disconnected := false }

/-- Send (`Packet::send`, lines 118-144): publish the value on the old
write end and append a fresh sentinel. -/
def send (s : Packet α) (val : α) : Except (α × Error) Unit × Packet α :=
  if s.receiver_disconnected then (.error (val, .Disconnected), s)
  else (.ok (), { s with queue := s.queue ++ [val] })

/-- Non-blocking receive (`Packet::recv_async`, lines 146-159). -/
def recv_async (s : Packet α) : Except Error α × Packet α :=
  match s.queue with
  | [] =>
    if s.sender_disconnected then (.error .Disconnected, s) else (.error .Empty, s)
  | v :: rest => (.ok v, { s with queue := rest })

def disconnect_sender (s : Packet α) : Packet α := { s with sender_disconnected := true }

def disconnect_receiver (s : Packet α) : Packet α :=
  { s with receiver_disconnected := true }

/-- Drain helper. -/
def recvList (s : Packet α) : Nat → List (Except Error α) × Packet α
  | 0 => ([], s)
  | n + 1 =>
    let r := recv_async s
    let rest := recvList r.2 n
    (r.1 :: rest.1, rest.2)

/-- Draining a disconnected channel returns every queued value in order
and then `Disconnected`. -/
theorem recvList_drain_spsc :
    ∀ (q : List α) (s : Packet α), s.queue = q → s.sender_disconnected = true →
      recvList s (q.length + 1) =
        (q.map Except.ok ++ [Except.error Error.Disconnected],
         { s with queue := [] }) := by
  intro q
  induction q with
  | nil =>
    intro s hqe hsd
    obtain ⟨q0, sd, rd⟩ := s
    simp_all [recvList, recv_async]
  | cons v vs ih =>
    intro s hqe hsd
    have hrecv : recv_async s = (.ok v, { s with queue := vs }) := by
      simp [recv_async, hqe]
    simp only [List.length_cons]
    rw [recvList, hrecv]
    have := ih { s with queue := vs } rfl hsd
    simp only [this]
    simp

end SpscUnbounded

/-! ## MPSC unbounded linked list (`src/src/mpsc/unbounded/imp.rs`)

Same list abstraction as the SPSC unbounded flavor.  Multiple producers
serialize through the `write_end` swap; sequentially a send appends one
value.  Sender liveness is a count, receiver liveness a flag. -/

namespace MpscUnbounded

structure Packet (α : Type) where
  queue : List α
  num_senders : Nat
  have_receiver : Bool
deriving DecidableEq, Repr

variable {α : Type}

/-- Packet construction (`Packet::new`): one sentinel, one sender, one
receiver. -/
def new (α : Type) : Packet α :=
  { queue := [], num_senders := 1, have_receiver := true }

/-- Sender clone (`add_sender`). -/
def add_sender (s : Packet α) : Packet α :=
  { s with num_senders := (s.num_senders + 1) % USIZE }

/-- Sender drop (`remove_sender`); notifications omitted. -/
def remove_sender (s : Packet α) : Packet α :=
  { s with num_senders := s.num_senders - 1 }

/-- Receiver drop (`remove_receiver`). -/
def remove_receiver (s : Packet α) : Packet α := { s with have_receiver := false }

/-- Send (`Packet::send`, lines 117-136). -/
def send (s : Packet α) (val : α) : Except (α × Error) Unit × Packet α :=
  if s.have_receiver then (.ok (), { s with queue := s.queue ++ [val] })
  else (.error (val, .Disconnected), s)

/-- Non-blocking receive (`Packet::recv_async`, lines 138-151). -/
def recv_async (s : Packet α) : Except Error α × Packet α :=
  match s.queue with
  | [] =>
    if s.num_senders = 0 then (.error .Disconnected, s) else (.error .Empty, s)
  | v :: rest => (.ok v, { s with queue := rest })

/-- Drain helper. -/
def recvList (s : Packet α) : Nat → List (Except Error α) × Packet α
  | 0 => ([], s)
  | n + 1 =>
    let r := recv_async s
    let rest := recvList r.2 n
    (r.1 :: rest.1, rest.2)

/-- Draining after all senders dropped returns every queued value in
order and then `Disconnected`. -/
theorem recvList_drain_mpsc :
    ∀ (q : List α) (s : Packet α), s.queue = q → s.num_senders = 0 →
      recvList s (q.length + 1) =
        (q.map Except.ok ++ [Except.error Error.Disconnected],
         { s with queue := [] }) := by
  intro q
  induction q with
  | nil =>
    intro s hqe hsd
    obtain ⟨q0, ns, hr⟩ := s
    simp_all [recvList, recv_async]
  | cons v vs ih =>
    intro s hqe hsd
    have hrecv : recv_async s = (.ok v, { s with queue := vs }) := by
      simp [recv_async, hqe]
    simp only [List.length_cons]
    rw [recvList, hrecv]
    have := ih { s with queue := vs } rfl hsd
    simp only [this]
    simp

end MpscUnbounded

/-! ## SPMC unbounded linked list (`src/src/spmc/unbounded/imp.rs`)

List abstraction again; consumers contend by swapping `read_end` with
null, which is invisible sequentially.  The packet keeps an explicit
`num_queued` counter that `recv_async` checks before touching the
list. -/

namespace SpmcUnbounded

structure Packet (α : Type) where
  queue : List α
  num_queued : Nat
  num_receivers : Nat
  have_sender : Bool
deriving DecidableEq, Repr

variable {α : Type}

/-- Packet construction (`Packet::new`). -/
def new (α : Type) : Packet α :=
  { queue := [], num_queued := 0, num_receivers := 1, have_sender := true }

/-- Sender drop (`remove_sender`); notifications omitted. -/
def remove_sender (s : Packet α) : Packet α := { s with have_sender := false }

/-- Send (`Packet::send`, lines 115-139). -/
def send (s : Packet α) (val : α) : Except (α × Error) Unit × Packet α :=
  if s.num_receivers = 0 then (.error (val, .Disconnected), s)
  else
    (.ok (),
     { s with queue := s.queue ++ [val], num_queued := (s.num_queued + 1) % USIZE })

/-- Non-blocking receive (`Packet::recv_async`, lines 141-171). -/
def recv_async (s : Packet α) : Except Error α × Packet α :=
  if s.num_queued = 0 then
    if s.have_sender then (.error .Empty, s) else (.error .Disconnected, s)
  else
    match s.queue with
    | [] => (.error .Empty, s)
    | v :: rest =>
      (.ok v, { s with queue := rest, num_queued := s.num_queued - 1 })

end SpmcUnbounded

/-! ## SPSC one-slot channel (`src/src/spsc/one_space/imp.rs`)

The flag word and the data slot are modelled directly; the parked
receiver thread handle only matters for blocking receives, which are
exercised through the flag transitions of `send`/`sender_disconnect`
visible below. -/

namespace SpscOneSpace

def NONE : Nat := 0
def SENDER_DISCONNECTED : Nat := 1
def DATA_AVAILABLE : Nat := 2
def RECEIVER_WORKING : Nat := 4
def RECEIVER_SLEEPING : Nat := 8
def RECEIVER_DISCONNECTED : Nat := 16
def WAIT_QUEUE_USED : Nat := 32

structure Packet (α : Type) where
  flags : Nat
  data : Option α
deriving DecidableEq, Repr

variable {α : Type}

/-- Packet construction (`Packet::new`). -/
def new (α : Type) : Packet α := { flags := NONE, data := none }

/-- Send (`Packet::send`, lines 62-109).  With no receiver flags set
the post-store loop exits immediately; the wait-queue branch does not
change the payload state. -/
def send (s : Packet α) (val : α) : Except (α × Error) Unit × Packet α :=
  if s.flags &&& RECEIVER_DISCONNECTED ≠ 0 then (.error (val, .Disconnected), s)
  else if s.flags &&& DATA_AVAILABLE ≠ 0 then (.error (val, .Full), s)
  else (.ok (), { flags := s.flags ||| DATA_AVAILABLE, data := some val })

/-- Sender drop (`Packet::sender_disconnect`, lines 114-138); the wake
loop only unparks a sleeping receiver. -/
def sender_disconnect (s : Packet α) : Packet α :=
  { s with flags := s.flags ||| SENDER_DISCONNECTED }

/-- Non-blocking receive (`Packet::recv_async`, lines 193-206).  The
`unwrap` on the data slot is total because `DATA_AVAILABLE` is set only
while the slot holds a value. -/
def recv_async (s : Packet α) : Except Error α × Packet α :=
  if s.flags &&& DATA_AVAILABLE = 0 then
    if s.flags &&& SENDER_DISCONNECTED ≠ 0 then (.error .Disconnected, s)
    else (.error .Empty, s)
  else
    match s.data with
    | some v => (.ok v, { flags := s.flags &&& (63 - DATA_AVAILABLE), data := none })
    | none => (.error .Empty, s)

/-- Receiver drop (`Packet::recv_disconnect`, lines 211-213). -/
def recv_disconnect (s : Packet α) : Packet α :=
  { s with flags := s.flags ||| RECEIVER_DISCONNECTED }

end SpscOneSpace

/-! ## SPMC bounded (`src/src/spmc/bounded_fast/imp.rs`)

Vyukov-style array queue: every slot carries a sequence number `pos`.
Slot values start uninitialized (`none`).  The reader CAS succeeds on
its first attempt in the sequential semantics. -/

namespace SpmcBoundedFast

structure Node (α : Type) where
  val : Option α
  pos : Nat
deriving DecidableEq, Repr

structure Packet (α : Type) where
  cap_mask : Nat
  buf : List (Node α)
  next_write : Nat
  next_read : Nat
  sender_disconnected : Bool
  num_receivers : Nat
deriving DecidableEq, Repr

variable {α : Type}

/-- Packet construction (`Packet::new`, lines 64-99): capacity at least
2, rounded to a power of two, slot `i` initialized with `pos = i`. -/
def new (α : Type) (buf_size : Nat) : Packet α :=
  let cap := nextPow2 (max buf_size 2)
  { cap_mask := cap - 1
    buf := (List.range cap).map (fun i => { val := none, pos := i })
    next_write := 0
    next_read := 0
    sender_disconnected := false
    num_receivers := 1 }

def get_node (s : Packet α) (pos : Nat) : Node α :=
  s.buf.getD (pos &&& s.cap_mask) { val := none, pos := 0 }

/-- Writer-side slot acquisition (`get_write_pos`, lines 146-157). -/
def get_write_pos (s : Packet α) : Option Nat :=
  let node := get_node s s.next_write
  let diff : Int := (node.pos : Int) - (s.next_write : Int)
  if diff < 0 then none else some s.next_write

/-- Send (`Packet::send_async`, lines 159-191). -/
def send_async (s : Packet α) (val : α) : Except (α × Error) Unit × Packet α :=
  if s.num_receivers = 0 then (.error (val, .Disconnected), s)
  else
    match get_write_pos s with
    | none =>
      if s.num_receivers = 0 then (.error (val, .Disconnected), s)
      else (.error (val, .Full), s)
    | some w =>
      (.ok (),
       { s with buf := s.buf.set (w &&& s.cap_mask) { val := some val, pos := w + 1 }
                next_write := s.next_write + 1 })

/-- Reader-side slot acquisition (`get_read_pos`, lines 217-235); the
CAS succeeds the first time sequentially, and the `diff > 0` retry
cannot happen without concurrent readers. -/
def get_read_pos (s : Packet α) : Option Nat :=
  let node := get_node s s.next_read
  let diff : Int := (node.pos : Int) - 1 - (s.next_read : Int)
  if diff < 0 then none else some s.next_read

/-- Non-blocking receive (`Packet::recv_async`, lines 237-264). -/
def recv_async (s : Packet α) : Except Error α × Packet α :=
  match get_read_pos s with
  | none =>
    if s.sender_disconnected then (.error .Disconnected, s)
    else (.error .Empty, s)
  | some r =>
    let node := get_node s r
    match node.val with
    | some v =>
      (.ok v,
       { s with buf := s.buf.set (r &&& s.cap_mask)
                  { val := none, pos := r + s.cap_mask + 1 }
                next_read := s.next_read + 1 })
    | none => (.error .Empty, s)

/-- Sender drop (`remove_sender`, lines 123-130). -/
def remove_sender (s : Packet α) : Packet α := { s with sender_disconnected := true }

end SpmcBoundedFast

end Comm

namespace Comm

/-! ## MPMC bounded (`src/src/mpmc/bounded/imp.rs`)

Two packed atomic words: `read_start_next_write` and
`write_end_next_read`, each holding two `HalfPointer` counters. -/

namespace MpmcBounded

/-- Split a `usize` into `(lower, higher)` halves
(`decompose_pointer`, lines 23-27). -/
def decompose_pointer (val : Nat) : Nat × Nat :=
  (val % HP, (val >>> HPBITS) % HP)

/-- Pack two halves into one `usize` (`compose_pointer`, lines 29-31). -/
def compose_pointer (lower higher : Nat) : Nat :=
  lower ||| (higher <<< HPBITS)

theorem decompose_compose (l h : Nat) (hl : l < HP) (hh : h < HP) :
    decompose_pointer (compose_pointer l h) = (l, h) := by
  have h32 : HP = 2 ^ HPBITS := rfl
  rw [h32] at hl hh
  unfold decompose_pointer compose_pointer
  rw [lor_shiftLeft_eq_add l h HPBITS hl, h32]
  have hfst : (l + h * 2 ^ HPBITS) % 2 ^ HPBITS = l := by
    rw [Nat.add_mul_mod_self_right, Nat.mod_eq_of_lt hl]
  have hsnd : (l + h * 2 ^ HPBITS) >>> HPBITS % 2 ^ HPBITS = h := by
    rw [Nat.shiftRight_eq_div_pow,
      Nat.add_mul_div_right l h (Nat.pos_pow_of_pos HPBITS (by norm_num)),
      Nat.div_eq_of_lt hl]
    simpa using Nat.mod_eq_of_lt hh
  rw [hfst]
  rw [Prod.mk.injEq]
  exact ⟨rfl, hsnd⟩

/-! ### Sequential packet semantics (complete operations) -/

structure Packet (α : Type) where
  cap_mask : Nat
  buf : List α
  rsnw : Nat
  wenr : Nat
  peers_awake : Nat
deriving DecidableEq, Repr

variable {α : Type} [Inhabited α]

/-- Packet construction (`Packet::new`, lines 79-117); the capacity
checks are modelled separately by the panic predicate. -/
def new (α : Type) [Inhabited α] (buf_size : Nat) : Packet α :=
  let cap := nextPow2 buf_size
  { cap_mask := cap - 1
    buf := List.replicate cap default
    rsnw := 0
    wenr := 0
    peers_awake := 1 }

/-- Endpoint clone (`add_peer`, lines 126-128). -/
def add_peer (s : Packet α) : Packet α :=
  { s with peers_awake := (s.peers_awake + 1) % USIZE }

/-- Endpoint drop (`remove_peer`, lines 131-141); the wake-ups do not
change the payload state. -/
def remove_peer (s : Packet α) : Packet α :=
  { s with peers_awake := s.peers_awake - 1 }

/-- Writer slot reservation (`get_write_pos`, lines 153-167); the CAS
succeeds on the first iteration sequentially. -/
def get_write_pos (s : Packet α) : Option (Nat × Packet α) :=
  let rs_nw := decompose_pointer s.rsnw
  if wsub HP rs_nw.2 rs_nw.1 = s.cap_mask + 1 then none
  else some (rs_nw.2, { s with rsnw := compose_pointer rs_nw.1 ((rs_nw.2 + 1) % HP) })

/-- Writer commit (`set_write_end`, lines 170-184); sequentially the
spin guard `write_end == pos` holds on entry, and the state is returned
unchanged otherwise. -/
def set_write_end (s : Packet α) (pos : Nat) : Packet α :=
  let we_nr := decompose_pointer s.wenr
  if we_nr.1 = pos then { s with wenr := compose_pointer ((pos + 1) % HP) we_nr.2 }
  else s

def set_mem (s : Packet α) (pos : Nat) (val : α) : Packet α :=
  { s with buf := s.buf.set (pos &&& s.cap_mask) val }

def get_mem (s : Packet α) (pos : Nat) : α :=
  s.buf.getD (pos &&& s.cap_mask) default

/-- Non-blocking send (`send_async`, lines 192-212); notifications
omitted. -/
def send_async (s : Packet α) (val : α) : Except (α × Error) Unit × Packet α :=
  match get_write_pos s with
  | none => (.error (val, .Full), s)
  | some ws => (.ok (), set_write_end (set_mem ws.2 ws.1 val) ws.1)

/-- Reader slot reservation (`get_read_pos`, lines 248-289). -/
def get_read_pos (s : Packet α) : Option (Nat × Packet α) :=
  let we_nr := decompose_pointer s.wenr
  if we_nr.1 = we_nr.2 then none
  else some (we_nr.2, { s with wenr := compose_pointer we_nr.1 ((we_nr.2 + 1) % HP) })

/-- Reader commit (`set_read_start`, lines 292-305). -/
def set_read_start (s : Packet α) (pos : Nat) : Packet α :=
  let rs_nw := decompose_pointer s.rsnw
  if rs_nw.1 = pos then { s with rsnw := compose_pointer ((pos + 1) % HP) rs_nw.2 }
  else s

/-- Non-blocking receive (`recv_async`, lines 313-331).  Note that this
operation can only fail with `Empty`: the MPMC packet has no
disconnect flag to consult. -/
def recv_async (s : Packet α) : Except Error α × Packet α :=
  match get_read_pos s with
  | none => (.error .Empty, s)
  | some rs => (.ok (get_mem rs.2 rs.1), set_read_start rs.2 rs.1)

/-- Destructor count: `Drop::drop` (lines 366-383) decomposes `wenr`
(naming the halves `write_end` and `read_start`, though the higher half
is `next_read`) and reads `write_end - next_read` elements. -/
def drop_count (s : Packet α) : Nat :=
  let we_nr := decompose_pointer s.wenr
  wsub HP we_nr.1 we_nr.2

inductive Op (α : Type) where
  | send (v : α)
  | recv
deriving DecidableEq, Repr

def run (s : Packet α) : List (Op α) → Packet α × Nat × Nat
  | [] => (s, 0, 0)
  | .send v :: ops =>
    let r := send_async s v
    let rest := run r.2 ops
    (rest.1, (if exceptOk r.1 then 1 else 0) + rest.2.1, rest.2.2)
  | .recv :: ops =>
    let r := recv_async s
    let rest := run r.2 ops
    (rest.1, rest.2.1, (if exceptOk r.1 then 1 else 0) + rest.2.2)

/-- Sequential counter invariant: after `sends` complete sends and
`recvs` complete receives, both packed words hold the wrapped totals. -/
def CtrInv (cm : Nat) (s : Packet α) (sends recvs : Nat) : Prop :=
  s.cap_mask = cm ∧
  s.rsnw = compose_pointer (recvs % HP) (sends % HP) ∧
  s.wenr = compose_pointer (sends % HP) (recvs % HP) ∧
  recvs ≤ sends ∧ sends ≤ recvs + (cm + 1)

theorem hp_pos : 0 < HP := by unfold HP HPBITS; positivity

theorem mpmc_send_async_cases (cm : Nat) (hcm : cm + 1 < HP) (s : Packet α)
    (sends recvs : Nat) (v : α) (h : CtrInv cm s sends recvs) :
    (exceptOk (send_async s v).1 = true ∧
      CtrInv cm (send_async s v).2 (sends + 1) recvs) ∨
    (exceptOk (send_async s v).1 = false ∧ (send_async s v).2 = s) := by
  obtain ⟨hmask, hrsnw, hwenr, hle, hub⟩ := h
  have hds : decompose_pointer s.rsnw = (recvs % HP, sends % HP) := by
    rw [hrsnw]
    exact decompose_compose _ _ (Nat.mod_lt _ hp_pos) (Nat.mod_lt _ hp_pos)
  have hdw : decompose_pointer s.wenr = (sends % HP, recvs % HP) := by
    rw [hwenr]
    exact decompose_compose _ _ (Nat.mod_lt _ hp_pos) (Nat.mod_lt _ hp_pos)
  have hws : wsub HP (sends % HP) (recvs % HP) = sends - recvs := by
    rw [wsub_mod_args, wsub_eq_sub HP sends recvs hp_pos hle (by omega)]
  by_cases hful : sends - recvs = cm + 1
  · right
    have : get_write_pos s = none := by
      simp only [get_write_pos, hds]
      rw [if_pos]
      rw [hws, hmask, hful]
    simp [send_async, this, exceptOk]
  · left
    have hgwp : get_write_pos s =
        some (sends % HP,
          { s with rsnw := compose_pointer (recvs % HP) ((sends % HP + 1) % HP) }) := by
      simp only [get_write_pos, hds]
      rw [if_neg]
      rw [hws, hmask]
      exact hful
    constructor
    · simp [send_async, hgwp, exceptOk]
    · have hfin : (send_async s v).2 =
          { s with buf := s.buf.set ((sends % HP) &&& s.cap_mask) v
                   rsnw := compose_pointer (recvs % HP) ((sends % HP + 1) % HP)
                   wenr := compose_pointer ((sends % HP + 1) % HP) (recvs % HP) } := by
        simp [send_async, hgwp, set_mem, set_write_end, hdw]
      rw [hfin]
      unfold CtrInv
      refine ⟨hmask, ?_, ?_, by omega, by omega⟩
      · simp [Nat.mod_add_mod]
      · simp [Nat.mod_add_mod]

theorem mpmc_recv_async_cases (cm : Nat) (hcm : cm + 1 < HP) (s : Packet α)
    (sends recvs : Nat) (h : CtrInv cm s sends recvs) :
    (exceptOk (recv_async s).1 = true ∧
      CtrInv cm (recv_async s).2 sends (recvs + 1)) ∨
    (exceptOk (recv_async s).1 = false ∧ (recv_async s).2 = s) := by
  obtain ⟨hmask, hrsnw, hwenr, hle, hub⟩ := h
  have hds : decompose_pointer s.rsnw = (recvs % HP, sends % HP) := by
    rw [hrsnw]
    exact decompose_compose _ _ (Nat.mod_lt _ hp_pos) (Nat.mod_lt _ hp_pos)
  have hdw : decompose_pointer s.wenr = (sends % HP, recvs % HP) := by
    rw [hwenr]
    exact decompose_compose _ _ (Nat.mod_lt _ hp_pos) (Nat.mod_lt _ hp_pos)
  have hiff : sends % HP = recvs % HP ↔ sends = recvs :=
    mod_eq_mod_iff_of_close HP sends recvs hp_pos hle (by omega)
  by_cases hempty : sends = recvs
  · right
    have : get_read_pos s = none := by
      simp only [get_read_pos, hdw]
      rw [if_pos (hiff.2 hempty)]
    simp [recv_async, this, exceptOk]
  · left
    have hgrp : get_read_pos s =
        some (recvs % HP,
          { s with wenr := compose_pointer (sends % HP) ((recvs % HP + 1) % HP) }) := by
      simp only [get_read_pos, hdw]
      rw [if_neg (fun hc => hempty (hiff.1 hc))]
    constructor
    · simp [recv_async, hgrp, exceptOk]
    · have hfin : (recv_async s).2 =
          { s with wenr := compose_pointer (sends % HP) ((recvs % HP + 1) % HP)
                   rsnw := compose_pointer ((recvs % HP + 1) % HP) (sends % HP) } := by
        simp [recv_async, hgrp, set_read_start, hds]
      rw [hfin]
      unfold CtrInv
      refine ⟨hmask, ?_, ?_, by omega, by omega⟩
      · simp [Nat.mod_add_mod]
      · simp [Nat.mod_add_mod]

theorem mpmc_run_ctrInv (cm : Nat) (hcm : cm + 1 < HP) :
    ∀ (ops : List (Op α)) (s : Packet α) (sends recvs : Nat),
      CtrInv cm s sends recvs →
      CtrInv cm (run s ops).1 (sends + (run s ops).2.1) (recvs + (run s ops).2.2) := by
  intro ops
  induction ops with
  | nil =>
    intro s sends recvs h
    simpa [run] using h
  | cons op ops ih =>
    intro s sends recvs h
    match op with
    | .send v =>
      rcases mpmc_send_async_cases cm hcm s sends recvs v h with ⟨hok, hinv⟩ | ⟨hok, heq⟩
      · have := ih (send_async s v).2 (sends + 1) recvs hinv
        simp only [run, hok, if_true]
        have h1 : sends + (1 + (run (send_async s v).2 ops).2.1) =
            sends + 1 + (run (send_async s v).2 ops).2.1 := by omega
        rw [h1]
        exact this
      · have := ih (send_async s v).2 sends recvs (by rw [heq]; exact h)
        simp only [run, hok, if_false]
        simpa using this
    | .recv =>
      rcases mpmc_recv_async_cases cm hcm s sends recvs h with ⟨hok, hinv⟩ | ⟨hok, heq⟩
      · have := ih (recv_async s).2 sends (recvs + 1) hinv
        simp only [run, hok, if_true]
        have h1 : recvs + (1 + (run (recv_async s).2 ops).2.2) =
            recvs + 1 + (run (recv_async s).2 ops).2.2 := by omega
        rw [h1]
        exact this
      · have := ih (recv_async s).2 sends recvs (by rw [heq]; exact h)
        simp only [run, hok, if_false]
        simpa using this

/-- After any operation history the MPMC packet destructor runs exactly
`sends - recvs` element destructors. -/
theorem mpmc_drop_count_eq (bs : Nat) (hbs : nextPow2 bs < HP) (ops : List (Op α)) :
    (run (new α bs) ops).2.2 ≤ (run (new α bs) ops).2.1 ∧
    drop_count (run (new α bs) ops).1 =
      (run (new α bs) ops).2.1 - (run (new α bs) ops).2.2 := by
  have hpos := nextPow2_pos bs
  have hcm : (nextPow2 bs - 1) + 1 < HP := by omega
  have hinit : CtrInv (nextPow2 bs - 1) (new α bs) 0 0 := by
    refine ⟨rfl, rfl, rfl, Nat.le_refl 0, by omega⟩
  have hfin := mpmc_run_ctrInv (nextPow2 bs - 1) hcm ops (new α bs) 0 0 hinit
  obtain ⟨hmask, hrsnw, hwenr, hle, hub⟩ := hfin
  simp only [Nat.zero_add] at hrsnw hwenr hle hub
  refine ⟨hle, ?_⟩
  unfold drop_count
  rw [hwenr, decompose_compose _ _ (Nat.mod_lt _ hp_pos) (Nat.mod_lt _ hp_pos)]
  rw [wsub_mod_args, wsub_eq_sub HP _ _ hp_pos hle (by omega)]

end MpmcBounded

end Comm

namespace Comm

namespace MpmcBounded

/-! ### Interleaved counter machine for the packed words

The four counters live in two CAS-able words; a complete send is a
`get_write_pos` reservation followed later by a `set_write_end` commit,
and symmetrically for receives.  The machine below exposes those four
primitive operations as separate transitions so that any interleaving
of concurrent senders and receivers is a path.  The ghost counters are
unwrapped totals; the stored words hold them modulo `HP`, and every
transition guard reads the stored words exactly as the code does.  The
`pending` lists record reservations whose commit has not happened yet
(the `pos` values held in stack frames between the two halves of an
operation). -/

structure Ctrs where
  cap_mask : Nat
  read_start : Nat
  next_write : Nat
  write_end : Nat
  next_read : Nat
  pending_writes : List Nat
  pending_reads : List Nat
deriving DecidableEq, Repr

/-- Initial counter state (`Packet::new`). -/
def ctrsInit (cm : Nat) : Ctrs :=
  { cap_mask := cm, read_start := 0, next_write := 0, write_end := 0,
    next_read := 0, pending_writes := [], pending_reads := [] }

/-- The stored `read_start_next_write` word. -/
def rsnwWord (c : Ctrs) : Nat :=
  compose_pointer (c.read_start % HP) (c.next_write % HP)

/-- The stored `write_end_next_read` word. -/
def wenrWord (c : Ctrs) : Nat :=
  compose_pointer (c.write_end % HP) (c.next_read % HP)

/-- One successful primitive operation on the packed words.  Guards are
the code's tests on the decomposed stored words; the commit operations
carry the reservation `pos` handed over from the matching acquisition
(compared, as in the code, at `HalfPointer` width). -/
inductive Step : Ctrs → Ctrs → Prop
  | get_write_pos (c : Ctrs)
      (h : wsub HP (decompose_pointer (rsnwWord c)).2
        (decompose_pointer (rsnwWord c)).1 ≠ c.cap_mask + 1) :
      Step c { c with next_write := c.next_write + 1
                      pending_writes := c.pending_writes ++ [c.next_write] }
  | set_write_end (c : Ctrs) (p : Nat) (hp : p ∈ c.pending_writes)
      (h : (decompose_pointer (wenrWord c)).1 = p % HP) :
      Step c { c with write_end := p + 1
                      pending_writes := c.pending_writes.erase p }
  | get_read_pos (c : Ctrs)
      (h : (decompose_pointer (wenrWord c)).1 ≠ (decompose_pointer (wenrWord c)).2) :
      Step c { c with next_read := c.next_read + 1
                      pending_reads := c.pending_reads ++ [c.next_read] }
  | set_read_start (c : Ctrs) (p : Nat) (hp : p ∈ c.pending_reads)
      (h : (decompose_pointer (rsnwWord c)).1 = p % HP) :
      Step c { c with read_start := p + 1
                      pending_reads := c.pending_reads.erase p }

/-- States reachable from a fresh packet. -/
inductive Reachable (cm : Nat) : Ctrs → Prop
  | init : Reachable cm (ctrsInit cm)
  | step {c c2 : Ctrs} : Reachable cm c → Step c c2 → Reachable cm c2

/-- The safety invariant of the four counters. -/
def Inv (c : Ctrs) : Prop :=
  c.read_start ≤ c.next_read ∧ c.next_read ≤ c.write_end ∧
  c.write_end ≤ c.next_write ∧
  c.next_write ≤ c.read_start + (c.cap_mask + 1) ∧
  (∀ p ∈ c.pending_writes, c.write_end ≤ p ∧ p < c.next_write) ∧
  (∀ p ∈ c.pending_reads, c.read_start ≤ p ∧ p < c.next_read) ∧
  c.pending_writes.Nodup ∧ c.pending_reads.Nodup

theorem decompose_rsnwWord (c : Ctrs) :
    decompose_pointer (rsnwWord c) = (c.read_start % HP, c.next_write % HP) :=
  decompose_compose _ _ (Nat.mod_lt _ hp_pos) (Nat.mod_lt _ hp_pos)

theorem decompose_wenrWord (c : Ctrs) :
    decompose_pointer (wenrWord c) = (c.write_end % HP, c.next_read % HP) :=
  decompose_compose _ _ (Nat.mod_lt _ hp_pos) (Nat.mod_lt _ hp_pos)

theorem step_preserves_inv (cm : Nat) (hcm : cm + 1 < HP) (c c2 : Ctrs)
    (hmask : c.cap_mask = cm) (hinv : Inv c) (hs : Step c c2) :
    c2.cap_mask = cm ∧ Inv c2 := by
  obtain ⟨h1, h2, h3, h4, hpw, hpr, hnw, hnr⟩ := hinv
  cases hs with
  | get_write_pos h =>
    rw [decompose_rsnwWord] at h
    simp only at h
    rw [wsub_mod_args,
      wsub_eq_sub HP c.next_write c.read_start hp_pos (by omega) (by omega)] at h
    rw [hmask] at h
    refine ⟨hmask, ?_, ?_, ?_, ?_, ?_, ?_, ?_, ?_⟩ <;> simp only [hmask]
    · exact h1
    · exact h2
    · omega
    · omega
    · intro p hp
      rcases List.mem_append.1 hp with hp | hp
      · have := hpw p hp
        omega
      · simp at hp
        omega
    · intro p hp
      have := hpr p hp
      omega
    · rw [List.nodup_append]
      refine ⟨hnw, List.nodup_singleton _, ?_⟩
      intro p hp hp2
      simp at hp2
      subst hp2
      have := hpw _ hp
      omega
    · exact hnr
  | set_write_end p hp h =>
    rw [decompose_wenrWord] at h
    simp only at h
    have hpb := hpw p hp
    have hpe : p = c.write_end := by
      exact (mod_eq_mod_iff_of_close HP p c.write_end hp_pos (by omega)
        (by omega)).1 h.symm
    refine ⟨hmask, ?_, ?_, ?_, ?_, ?_, ?_, ?_, ?_⟩ <;> simp only [hmask]
    · exact h1
    · omega
    · omega
    · omega
    · intro q hq
      have hq2 := List.mem_of_mem_erase hq
      have hqe : q ≠ p := (List.Nodup.mem_erase_iff hnw).1 hq |>.1
      have := hpw q hq2
      omega
    · intro q hq
      have := hpr q hq
      omega
    · exact List.Nodup.erase p hnw
    · exact hnr
  | get_read_pos h =>
    rw [decompose_wenrWord] at h
    simp only at h
    have hne : c.write_end ≠ c.next_read := by
      intro hc
      rw [hc] at h
      exact h rfl
    refine ⟨hmask, ?_, ?_, ?_, ?_, ?_, ?_, ?_, ?_⟩ <;> simp only [hmask]
    · omega
    · omega
    · exact h3
    · omega
    · intro q hq
      have := hpw q hq
      omega
    · intro q hq
      rcases List.mem_append.1 hq with hq | hq
      · have := hpr q hq
        omega
      · simp at hq
        omega
    · exact hnw
    · rw [List.nodup_append]
      refine ⟨hnr, List.nodup_singleton _, ?_⟩
      intro q hq hq2
      simp at hq2
      subst hq2
      have := hpr _ hq
      omega
  | set_read_start p hp h =>
    rw [decompose_rsnwWord] at h
    simp only at h
    have hpb := hpr p hp
    have hpe : p = c.read_start := by
      exact (mod_eq_mod_iff_of_close HP p c.read_start hp_pos (by omega)
        (by omega)).1 h.symm
    refine ⟨hmask, ?_, ?_, ?_, ?_, ?_, ?_, ?_, ?_⟩ <;> simp only [hmask]
    · omega
    · exact h2
    · exact h3
    · omega
    · intro q hq
      have := hpw q hq
      omega
    · intro q hq
      have hq2 := List.mem_of_mem_erase hq
      have hqe : q ≠ p := (List.Nodup.mem_erase_iff hnr).1 hq |>.1
      have := hpr q hq2
      omega
    · exact hnw
    · exact List.Nodup.erase p hnr

/-- Every reachable state satisfies the invariant. -/
theorem reachable_inv (cm : Nat) (hcm : cm + 1 < HP) (c : Ctrs)
    (hr : Reachable cm c) : c.cap_mask = cm ∧ Inv c := by
  induction hr with
  | init =>
    refine ⟨rfl, ?_⟩
    unfold Inv ctrsInit
    refine ⟨Nat.le_refl 0, Nat.le_refl 0, Nat.le_refl 0, by simp, ?_, ?_, ?_, ?_⟩ <;>
      simp
  | step hr hs ih =>
    exact step_preserves_inv cm hcm _ _ ih.1 ih.2 hs

/-- Every transition only increases each of the four counters. -/
theorem step_monotone (c c2 : Ctrs) (hinv : Inv c) (hs : Step c c2) :
    c.read_start ≤ c2.read_start ∧ c.next_write ≤ c2.next_write ∧
    c.write_end ≤ c2.write_end ∧ c.next_read ≤ c2.next_read := by
  obtain ⟨h1, h2, h3, h4, hpw, hpr, hnw, hnr⟩ := hinv
  cases hs with
  | get_write_pos h => exact ⟨Nat.le_refl _, by simp, Nat.le_refl _, Nat.le_refl _⟩
  | set_write_end p hp h =>
    have := hpw p hp
    exact ⟨Nat.le_refl _, Nat.le_refl _, by simp; omega, Nat.le_refl _⟩
  | get_read_pos h => exact ⟨Nat.le_refl _, Nat.le_refl _, Nat.le_refl _, by simp⟩
  | set_read_start p hp h =>
    have := hpr p hp
    exact ⟨by simp; omega, Nat.le_refl _, Nat.le_refl _, Nat.le_refl _⟩

end MpmcBounded

end Comm

namespace Comm

namespace MpmcBounded

/-! ### Deadlock detection (`send_sync` lines 214-245, `recv_sync`
lines 333-360)

A blocked `recv_sync` loop iteration runs, after `recv_async` failed:

  if peers_awake.fetch_sub(1) == 1 && sleeping_senders == 0
      { peers_awake.fetch_add(1); return Deadlock }
  else { wait on recv_condvar; peers_awake.fetch_add(1) }

`send_sync` is the mirror image with `sleeping_receivers`.  The step
functions below return the decision (`true` = return `Deadlock`) and
the resulting `peers_awake` value at the moment the decision is taken
(for the sleeping branch, the value while the thread is parked). -/

/-- One blocked-sender loop decision. -/
def send_sync_block_step (peers_awake sleeping_receivers : Nat) : Bool × Nat :=
  if peers_awake = 1 ∧ sleeping_receivers = 0 then
    (true, (peers_awake - 1 + 1) % USIZE)
  else (false, (peers_awake + (USIZE - 1)) % USIZE)

/-- One blocked-receiver loop decision. -/
def recv_sync_block_step (peers_awake sleeping_senders : Nat) : Bool × Nat :=
  if peers_awake = 1 ∧ sleeping_senders = 0 then
    (true, (peers_awake - 1 + 1) % USIZE)
  else (false, (peers_awake + (USIZE - 1)) % USIZE)

/-! ### Two blocked consumers, capacity 1, no producers

An explicit interleaving machine for spec scenario 4.  The channel
stays empty (nobody ever sends), so every `recv_async` in the loop
fails; what remains of `recv_sync` is the sleeper bookkeeping.  Events:

* `enter t` - the thread locks `sleep_mutex` and increments
  `sleeping_receivers` after its first failed `recv_async`;
* `attempt t` - one loop iteration: failed `recv_async`, then the
  deadlock check above; on `Deadlock` the thread finishes
  (decrementing `sleeping_receivers` on the way out), otherwise it
  parks on `recv_condvar`;
* `drop t` - a finished thread drops its `Channel`, running
  `remove_peer`, whose notification wakes one parked receiver;
* `wake t` - a parked thread consumes a pending notification, runs
  `peers_awake.fetch_add(1)` and re-enters the loop. -/

inductive Phase where
  | outside
  | looping
  | parked
  | done (deadlock : Bool)
  | dropped (deadlock : Bool)
deriving DecidableEq, Repr

structure ScenState where
  peers_awake : Nat
  sleeping_senders : Nat
  sleeping_receivers : Nat
  pending_notifies : Nat
  thr_a : Phase
  thr_b : Phase
deriving DecidableEq, Repr

/-- Two endpoints: `Channel::new` starts `peers_awake` at 1 and the
clone for the second consumer adds 1. -/
def scenInit : ScenState :=
  { peers_awake := 2, sleeping_senders := 0, sleeping_receivers := 0,
    pending_notifies := 0, thr_a := .outside, thr_b := .outside }

inductive Tid where
  | a
  | b
deriving DecidableEq, Repr

def getThr (s : ScenState) (t : Tid) : Phase :=
  match t with
  | .a => s.thr_a
  | .b => s.thr_b

def setThr (s : ScenState) (t : Tid) (p : Phase) : ScenState :=
  match t with
  | .a => { s with thr_a := p }
  | .b => { s with thr_b := p }

inductive Ev where
  | enter (t : Tid)
  | attempt (t : Tid)
  | drop (t : Tid)
  | wake (t : Tid)
deriving DecidableEq, Repr

def scenStep (s : ScenState) (e : Ev) : ScenState :=
  match e with
  | .enter t =>
    match getThr s t with
    | .outside =>
      setThr { s with sleeping_receivers := (s.sleeping_receivers + 1) % USIZE }
        t .looping
    | _ => s
  | .attempt t =>
    match getThr s t with
    | .looping =>
      let d := recv_sync_block_step s.peers_awake s.sleeping_senders
      if d.1 then
        setThr { s with peers_awake := d.2
                        sleeping_receivers := s.sleeping_receivers - 1 }
          t (.done true)
      else
        setThr { s with peers_awake := d.2 } t .parked
    | _ => s
  | .drop t =>
    match getThr s t with
    | .done dl =>
      let notify : Nat := if s.peers_awake = 1 ∧ 0 < s.sleeping_receivers then 1 else 0
      setThr { s with peers_awake := s.peers_awake - 1
                      pending_notifies := s.pending_notifies + notify }
        t (.dropped dl)
    | _ => s
  | .wake t =>
    match getThr s t with
    | .parked =>
      if 0 < s.pending_notifies then
        setThr { s with pending_notifies := s.pending_notifies - 1
                        peers_awake := (s.peers_awake + 1) % USIZE }
          t .looping
      else s
    | _ => s

def scenRun (s : ScenState) (es : List Ev) : ScenState := es.foldl scenStep s

/-- The canonical schedule: consumer A blocks, consumer B detects the
deadlock, B finishes and drops its endpoint, the drop's notification
wakes A, and A then detects the deadlock too. -/
def scenSchedule : List Ev :=
  [.enter .a, .attempt .a, .enter .b, .attempt .b, .drop .b, .wake .a, .attempt .a]

end MpmcBounded

/-! ## Constructor capacity checks (claim C8)

Capacity-related panic conditions of the bounded constructors,
parametrized by the pointer width `w` (64 or 32); `sizeof_t` is
`mem::size_of::<T>()`.  `!0` is `2^w - 1` and `!0 >> 1` is
`2^(w-1) - 1`. -/

/-- MPMC constructor panic condition (`mpmc/bounded/imp.rs` lines
79-95): a `HalfPointer` capacity guard followed by a checked
allocation-size guard (`checked_mul` falls back to `!0`). -/
def mpmc_new_panics (w buf_size sizeof_t : Nat) : Bool :=
  if buf_size > 2 ^ (w / 2 - 1) then true
  else
    let cap := nextPow2 buf_size
    let size := if cap * sizeof_t < 2 ^ w then cap * sizeof_t else 2 ^ w - 1
    decide (size > 2 ^ (w - 1) - 1)

/-- SPSC bounded constructor panic condition (`spsc/bounded/imp.rs`
lines 47-52): `checked_next_power_of_two().expect(..)` fails only when
the next power of two overflows `usize`, and the size guard uses
`size >= !0 >> 1`. -/
def spsc_bounded_new_panics (w buf_size sizeof_t : Nat) : Bool :=
  if buf_size > 2 ^ (w - 1) then true
  else
    let cap := nextPow2 buf_size
    let size := if cap * sizeof_t < 2 ^ w then cap * sizeof_t else 2 ^ w - 1
    decide (size ≥ 2 ^ (w - 1) - 1)

/-- SPMC bounded-fast constructor (`spmc/bounded_fast/imp.rs` lines
64-71) never panics on capacity: both `checked_next_power_of_two` and
`checked_mul` fall back to `!0` via `unwrap_or`. -/
def spmc_fast_new_panics (w buf_size sizeof_t : Nat) : Bool := false

/-- The MPMC panic condition as the specification words it: the
requested capacity exceeds `2^(w/2 - 1)`, or the allocation size
`next_power_of_two(cap) * sizeof(T)` overflows the maximum allocation
size (`isize::MAX`). -/
def spec_mpmc_new_panics (w buf_size sizeof_t : Nat) : Bool :=
  decide (buf_size > 2 ^ (w / 2 - 1)) ||
    decide (nextPow2 buf_size * sizeof_t ≥ 2 ^ (w - 1))

end Comm

namespace Comm

/-! ## The multiplexer (`src/src/select/imp.rs`)

The `Inner` state is the wait list (the key set of the
`HashMap<usize, Entry>`) and the deduplicated sorted ready list
(`SortedVec<usize>`).  Mutations arrive through `Select::add`,
`Select::remove`, the packet-side notifications `add_ready` and
`going_away`, and the purge pass `check_ready_list`; each is one event
below.  Readiness checks (`target.data.upgrade().map(|e| e.ready())`)
are abstracted as a boolean function on ids, `false` covering both
"not ready" and "weak upgrade failed". -/

namespace SelectModel

/-- Insertion into a `SortedVec` (`sortedvec.rs` lines 14-30): place
the value at its sorted position unless it is already present. -/
def sv_insert : List Nat → Nat → List Nat
  | [], v => [v]
  | x :: xs, v =>
    if v < x then v :: x :: xs
    else if v = x then x :: xs
    else x :: sv_insert xs v

/-- Key-set effect of `HashMap::insert`. -/
def wl_insert (l : List Nat) (v : Nat) : List Nat :=
  if v ∈ l then l else v :: l

structure Inner where
  wait_list : List Nat
  ready_list : List Nat
deriving DecidableEq, Repr

def innerInit : Inner := { wait_list := [], ready_list := [] }

inductive Event where
  | add (id : Nat) (ready : Bool)
  | remove (id : Nat)
  | add_ready (id : Nat)
  | going_away (id : Nat)
  | check_ready (f : Nat → Bool)

/-- One state change of `Inner`:

* `add` (`Select::add`, lines 33-48): insert into the ready list when
  the selectable is already ready, and into the wait list;
* `remove` (`Select::remove`, lines 52-68): only if the id is in the
  wait list, remove it from both lists;
* `add_ready` (lines 162-171): insert into the ready list only if the
  id is in the wait list;
* `going_away` (lines 173-182): if the id is in the wait list, remove
  it there and insert it into the ready list;
* `check_ready` (`check_ready_list`, lines 184-204): keep only ids
  that are in the wait list and currently ready. -/
def applyEvent (s : Inner) : Event → Inner
  | .add id rdy =>
    { wait_list := wl_insert s.wait_list id
      ready_list := if rdy then sv_insert s.ready_list id else s.ready_list }
  | .remove id =>
    if id ∈ s.wait_list then
      { wait_list := s.wait_list.erase id, ready_list := s.ready_list.erase id }
    else s
  | .add_ready id =>
    if id ∈ s.wait_list then { s with ready_list := sv_insert s.ready_list id }
    else s
  | .going_away id =>
    if id ∈ s.wait_list then
      { wait_list := s.wait_list.erase id
        ready_list := sv_insert s.ready_list id }
    else s
  | .check_ready f =>
    { s with
      ready_list := s.ready_list.filter (fun id => decide (id ∈ s.wait_list) && f id) }

def runFrom (s : Inner) (t : List Event) : Inner := t.foldl applyEvent s

def runEvents (t : List Event) : Inner := runFrom innerInit t

def isAddOf (e : Event) (id : Nat) : Bool :=
  match e with
  | .add j _ => j == id
  | _ => false

/-- Whether the trace contains an `add` of this id. -/
def mentionsAdd (t : List Event) (id : Nat) : Bool := t.any (fun e => isAddOf e id)

/-- The purge-and-copy pass (`Inner::check_ready_list`, lines 184-204):
re-filter the ready list through the wait list and the current
readiness function, then hand out up to `buf_len` ids (`None` when
nothing is handed out). -/
def check_ready_list (s : Inner) (f : Nat → Bool) (buf_len : Nat) :
    Option (List Nat) :=
  let purged := s.ready_list.filter (fun id => decide (id ∈ s.wait_list) && f id)
  if Nat.min buf_len purged.length = 0 then none
  else some (purged.take (Nat.min buf_len purged.length))

/-- Output of `Select::wait` (lines 75-95): empty multiplexers return
at once; otherwise the ready list is purged, a nonempty purge result is
returned immediately, and otherwise the caller sleeps on the condvar
while other threads interleave the events `mid`, finally copying the
ready list found at wake-up.  The wait-list filtering performed by the
purge is not repeated on that final copy. -/
def wait_output (s : Inner) (f : Nat → Bool) (buf_len : Nat) (mid : List Event) :
    List Nat :=
  if s.wait_list.isEmpty then []
  else
    match check_ready_list s f buf_len with
    | some out => out
    | none =>
      let s2 := runFrom (applyEvent s (.check_ready f)) mid
      s2.ready_list.take (Nat.min buf_len s2.ready_list.length)

/-- Result of `Select::wait_timeout` (lines 107-137): like `wait`, but
after the purge a `None` duration returns an empty slice, and otherwise
the condvar wait runs with the timeout.  `timed_out` tells whether
`notified.timed_out()` was true at wake-up, and `ready_at_wake` is the
ready list at that point.  The code returns `None` when the condvar
wait was NOT timed out, and copies out the ready list when it was. -/
def wait_timeout (s : Inner) (f : Nat → Bool) (buf_len : Nat)
    (duration : Option Nat) (timed_out : Bool) (ready_at_wake : List Nat) :
    Option (List Nat) :=
  if s.wait_list.isEmpty then some []
  else
    match check_ready_list s f buf_len with
    | some out => some out
    | none =>
      match duration with
      | none => some []
      | some _ =>
        if !timed_out then none
        else some (ready_at_wake.take (Nat.min buf_len ready_at_wake.length))

theorem mem_sv_insert (v a : Nat) :
    ∀ l : List Nat, a ∈ sv_insert l v ↔ a = v ∨ a ∈ l := by
  intro l
  induction l with
  | nil => simp [sv_insert]
  | cons x xs ih =>
    unfold sv_insert
    by_cases h1 : v < x
    · simp [h1]
    · by_cases h2 : v = x
      · subst h2
        simp [h1]
      · simp only [h1, h2, if_false]
        simp [ih]
        tauto

theorem sorted_sv_insert (v : Nat) :
    ∀ l : List Nat, l.Sorted (· < ·) → (sv_insert l v).Sorted (· < ·) := by
  intro l
  induction l with
  | nil =>
    intro _
    simp [sv_insert]
  | cons x xs ih =>
    intro hs
    rw [List.sorted_cons] at hs
    unfold sv_insert
    by_cases h1 : v < x
    · simp only [h1, if_true]
      rw [List.sorted_cons]
      refine ⟨?_, ?_⟩
      · intro b hb
        rcases List.mem_cons.1 hb with rfl | hb
        · exact h1
        · exact Nat.lt_trans h1 (hs.1 b hb)
      · rw [List.sorted_cons]
        exact hs
    · by_cases h2 : v = x
      · subst h2
        rw [if_neg h1, if_pos rfl, List.sorted_cons]
        exact hs
      · rw [if_neg h1, if_neg h2, List.sorted_cons]
        refine ⟨?_, ih hs.2⟩
        intro b hb
        rcases (mem_sv_insert v b xs).1 hb with rfl | hb
        · omega
        · exact hs.1 b hb

theorem mem_wl_insert (l : List Nat) (v a : Nat) :
    a ∈ wl_insert l v ↔ a = v ∨ a ∈ l := by
  unfold wl_insert
  by_cases h : v ∈ l
  · simp only [h, if_true]
    constructor
    · exact Or.inr
    · intro ha
      rcases ha with rfl | ha
      · exact h
      · exact ha
  · simp [h]

theorem nodup_wl_insert (l : List Nat) (v : Nat) (h : l.Nodup) :
    (wl_insert l v).Nodup := by
  unfold wl_insert
  by_cases hm : v ∈ l
  · simp [hm, h]
  · simp [hm, h]

/-- Structural well-formedness maintained by every event. -/
def WF (s : Inner) : Prop :=
  s.wait_list.Nodup ∧ s.ready_list.Sorted (· < ·)

theorem sorted_nodup {l : List Nat} (h : l.Sorted (· < ·)) : l.Nodup :=
  h.imp (fun hlt => Nat.ne_of_lt hlt)

theorem applyEvent_WF (s : Inner) (e : Event) (h : WF s) : WF (applyEvent s e) := by
  obtain ⟨hw, hr⟩ := h
  cases e with
  | add id rdy =>
    refine ⟨nodup_wl_insert _ _ hw, ?_⟩
    by_cases hb : rdy
    · simp only [applyEvent, hb, if_true]
      exact sorted_sv_insert id _ hr
    · simp only [applyEvent, hb, if_false]
      exact hr
  | remove id =>
    by_cases hm : id ∈ s.wait_list
    · simp only [applyEvent, hm, if_true]
      exact ⟨List.Nodup.erase id hw, List.Pairwise.sublist (List.erase_sublist id _) hr⟩
    · simp only [applyEvent, hm, if_false]
      exact ⟨hw, hr⟩
  | add_ready id =>
    by_cases hm : id ∈ s.wait_list
    · simp only [applyEvent, hm, if_true]
      exact ⟨hw, sorted_sv_insert id _ hr⟩
    · simp only [applyEvent, hm, if_false]
      exact ⟨hw, hr⟩
  | going_away id =>
    by_cases hm : id ∈ s.wait_list
    · simp only [applyEvent, hm, if_true]
      exact ⟨List.Nodup.erase id hw, sorted_sv_insert id _ hr⟩
    · simp only [applyEvent, hm, if_false]
      exact ⟨hw, hr⟩
  | check_ready f =>
    exact ⟨hw, List.Pairwise.sublist (List.filter_sublist _) hr⟩

theorem runFrom_WF (t : List Event) :
    ∀ s : Inner, WF s → WF (runFrom s t) := by
  induction t with
  | nil => intro s h; exact h
  | cons e t ih =>
    intro s h
    exact ih (applyEvent s e) (applyEvent_WF s e h)

theorem mem_applyEvent (s : Inner) (e : Event) (id : Nat)
    (h : id ∈ (applyEvent s e).wait_list ∨ id ∈ (applyEvent s e).ready_list) :
    (id ∈ s.wait_list ∨ id ∈ s.ready_list) ∨ isAddOf e id = true := by
  cases e with
  | add j rdy =>
    rcases h with h | h
    · rcases (mem_wl_insert _ _ _).1 h with rfl | h
      · right; simp [isAddOf]
      · left; exact Or.inl h
    · by_cases hb : rdy
      · simp only [applyEvent, hb, if_true] at h
        rcases (mem_sv_insert _ _ _).1 h with rfl | h
        · right; simp [isAddOf]
        · left; exact Or.inr h
      · simp only [applyEvent, hb, if_false] at h
        left; exact Or.inr h
  | remove j =>
    by_cases hm : j ∈ s.wait_list
    · simp only [applyEvent, hm, if_true] at h
      rcases h with h | h
      · left; exact Or.inl (List.mem_of_mem_erase h)
      · left; exact Or.inr (List.mem_of_mem_erase h)
    · simp only [applyEvent, hm, if_false] at h
      left; exact h
  | add_ready j =>
    by_cases hm : j ∈ s.wait_list
    · simp only [applyEvent, hm, if_true] at h
      rcases h with h | h
      · left; exact Or.inl h
      · rcases (mem_sv_insert _ _ _).1 h with rfl | h
        · left; exact Or.inl hm
        · left; exact Or.inr h
    · simp only [applyEvent, hm, if_false] at h
      left; exact h
  | going_away j =>
    by_cases hm : j ∈ s.wait_list
    · simp only [applyEvent, hm, if_true] at h
      rcases h with h | h
      · left; exact Or.inl (List.mem_of_mem_erase h)
      · rcases (mem_sv_insert _ _ _).1 h with rfl | h
        · left; exact Or.inl hm
        · left; exact Or.inr h
    · simp only [applyEvent, hm, if_false] at h
      left; exact h
  | check_ready f =>
    rcases h with h | h
    · left; exact Or.inl h
    · left; exact Or.inr (List.mem_of_mem_filter h)

theorem runFrom_mem (t : List Event) :
    ∀ (s : Inner) (id : Nat),
      (id ∈ (runFrom s t).wait_list ∨ id ∈ (runFrom s t).ready_list) →
      (id ∈ s.wait_list ∨ id ∈ s.ready_list) ∨ mentionsAdd t id = true := by
  induction t with
  | nil =>
    intro s id h
    exact Or.inl h
  | cons e t ih =>
    intro s id h
    rcases ih (applyEvent s e) id h with h2 | h2
    · rcases mem_applyEvent s e id h2 with h3 | h3
      · exact Or.inl h3
      · right
        simp [mentionsAdd, h3]
    · right
      simp [mentionsAdd] at h2 ⊢
      tauto

theorem not_mem_applyEvent (s : Inner) (e : Event) (id : Nat)
    (hw : id ∉ s.wait_list) (hr : id ∉ s.ready_list)
    (hne : isAddOf e id = false) :
    id ∉ (applyEvent s e).wait_list ∧ id ∉ (applyEvent s e).ready_list := by
  constructor <;> intro hc
  · rcases mem_applyEvent s e id (Or.inl hc) with h | h
    · tauto
    · rw [hne] at h
      exact Bool.false_ne_true h
  · rcases mem_applyEvent s e id (Or.inr hc) with h | h
    · tauto
    · rw [hne] at h
      exact Bool.false_ne_true h

theorem runFrom_not_mem (t : List Event) :
    ∀ (s : Inner) (id : Nat), id ∉ s.wait_list → id ∉ s.ready_list →
      mentionsAdd t id = false →
      id ∉ (runFrom s t).wait_list ∧ id ∉ (runFrom s t).ready_list := by
  induction t with
  | nil =>
    intro s id hw hr _
    exact ⟨hw, hr⟩
  | cons e t ih =>
    intro s id hw hr hm
    have hm2 : isAddOf e id = false ∧ mentionsAdd t id = false := by
      simp [mentionsAdd] at hm ⊢
      tauto
    obtain ⟨hw2, hr2⟩ := not_mem_applyEvent s e id hw hr hm2.1
    exact ih (applyEvent s e) id hw2 hr2 hm2.2

/-- The wait list only ever receives added ids (no event other than
`add id` can put `id` into the wait list). -/
theorem wait_not_mem_applyEvent (s : Inner) (e : Event) (id : Nat)
    (hw : id ∉ s.wait_list) (hne : isAddOf e id = false) :
    id ∉ (applyEvent s e).wait_list := by
  cases e with
  | add j rdy =>
    intro hc
    rcases (mem_wl_insert _ _ _).1 hc with rfl | hc2
    · simp [isAddOf] at hne
    · exact hw hc2
  | remove j =>
    by_cases hm : j ∈ s.wait_list
    · simp only [applyEvent, hm, if_true]
      intro hc
      exact hw (List.mem_of_mem_erase hc)
    · simp only [applyEvent, hm, if_false]
      exact hw
  | add_ready j =>
    by_cases hm : j ∈ s.wait_list <;> simp only [applyEvent, hm, if_true, if_false] <;>
      exact hw
  | going_away j =>
    by_cases hm : j ∈ s.wait_list
    · simp only [applyEvent, hm, if_true]
      intro hc
      exact hw (List.mem_of_mem_erase hc)
    · simp only [applyEvent, hm, if_false]
      exact hw
  | check_ready f =>
    exact hw

theorem runFrom_wait_not_mem (t : List Event) :
    ∀ (s : Inner) (id : Nat), id ∉ s.wait_list → mentionsAdd t id = false →
      id ∉ (runFrom s t).wait_list := by
  induction t with
  | nil =>
    intro s id hw _
    exact hw
  | cons e t ih =>
    intro s id hw hm
    have hm2 : isAddOf e id = false ∧ mentionsAdd t id = false := by
      simp [mentionsAdd] at hm ⊢
      tauto
    exact ih (applyEvent s e) id (wait_not_mem_applyEvent s e id hw hm2.1) hm2.2

/-- `Select::remove` leaves the id outside the wait list. -/
theorem remove_not_mem_wait (s : Inner) (id : Nat) (h : s.wait_list.Nodup) :
    id ∉ (applyEvent s (.remove id)).wait_list := by
  by_cases hm : id ∈ s.wait_list
  · simp only [applyEvent, hm, if_true]
    intro hc
    exact ((List.Nodup.mem_erase_iff h).1 hc).1 rfl
  · simp only [applyEvent, hm, if_false]
    exact not_false

end SelectModel

end Comm

namespace Comm

namespace SpscBounded

/-- Filling a fresh power-of-two channel with `vs.length ≤ k` values. -/
theorem roundtrip_fill (e : Nat) (he : e ≤ 63) (vs : List Nat)
    (hlen : vs.length ≤ 2 ^ e) :
    sendList (new Nat (2 ^ e)) vs =
      (true,
       { cap_mask := 2 ^ e - 1
         buf := writeSeq (List.replicate (2 ^ e) 0) 0 vs
         read_pos := 0
         write_pos := vs.length
         sender_disconnected := false
         receiver_disconnected := false }) := by
  have hnew : new Nat (2 ^ e) =
      { cap_mask := 2 ^ e - 1
        buf := List.replicate (2 ^ e) 0
        read_pos := 0
        write_pos := 0
        sender_disconnected := false
        receiver_disconnected := false } := by
    simp [new, nextPow2_two_pow]
  rw [hnew]
  have h := sendList_spec e he vs
    { cap_mask := 2 ^ e - 1
      buf := List.replicate (2 ^ e) 0
      read_pos := 0
      write_pos := 0
      sender_disconnected := false
      receiver_disconnected := false }
    0 rfl (by simp) rfl rfl rfl (by simpa using hlen)
  simpa using h

/-- Draining the filled channel returns the values in order; the flag
argument covers both the connected and the sender-disconnected case. -/
theorem roundtrip_drain (e : Nat) (he : e ≤ 63) (vs : List Nat)
    (hlen : vs.length ≤ 2 ^ e) (sd : Bool) :
    recvList
      { cap_mask := 2 ^ e - 1
        buf := writeSeq (List.replicate (2 ^ e) 0) 0 vs
        read_pos := 0
        write_pos := vs.length
        sender_disconnected := sd
        receiver_disconnected := false } vs.length =
      (vs.map Except.ok,
       { cap_mask := 2 ^ e - 1
         buf := writeSeq (List.replicate (2 ^ e) 0) 0 vs
         read_pos := vs.length
         write_pos := vs.length
         sender_disconnected := sd
         receiver_disconnected := false }) := by
  have h := recvList_spec e he vs
    { cap_mask := 2 ^ e - 1
      buf := writeSeq (List.replicate (2 ^ e) 0) 0 vs
      read_pos := 0
      write_pos := vs.length
      sender_disconnected := sd
      receiver_disconnected := false }
    0 rfl rfl (by simp) (by simpa using hlen) (by
      intro j hj
      have := writeSeq_getD vs (List.replicate (2 ^ e) 0) 0 j (default : Nat) hj
        (by simpa using hlen)
      simpa using this)
  simpa using h

/-- A further non-blocking send on the full channel fails with `Full`
and changes nothing. -/
theorem send_async_full (e : Nat) (he : e ≤ 63) (s : Packet Nat) (v : Nat)
    (hcm : s.cap_mask = 2 ^ e - 1) (hr : s.read_pos = 0)
    (hw : s.write_pos = 2 ^ e) (hrd : s.receiver_disconnected = false) :
    send_async s v = (.error (v, .Full), s) := by
  have hU : (2 : Nat) ^ e < USIZE := by
    have : (2 : Nat) ^ e ≤ 2 ^ 63 := Nat.pow_le_pow_right (by norm_num) he
    unfold USIZE; omega
  have hp : (0 : Nat) < 2 ^ e := Nat.pos_pow_of_pos e (by norm_num)
  have hsub : wsub USIZE s.write_pos s.read_pos = 2 ^ e := by
    rw [hw, hr, wsub_eq_sub USIZE (2 ^ e) 0 (by omega) (Nat.zero_le _) (by omega)]
    omega
  have hd2 : ¬ (s.receiver_disconnected = true) := by rw [hrd]; simp
  simp only [send_async, get_pos]
  rw [if_neg hd2, if_pos (by rw [hsub, hcm]; omega)]

/-- A non-blocking receive on an equal-position channel reports `Empty`
or `Disconnected` according to the flag. -/
theorem recv_async_drained (s : Packet Nat) (h : s.write_pos = s.read_pos) :
    recv_async s =
      (if s.sender_disconnected then (.error .Disconnected, s)
       else (.error .Empty, s)) := by
  simp only [recv_async, get_pos]
  rw [if_pos h]

end SpscBounded

end Comm

namespace Comm

/-! ## Claim theorems -/

/-- C1 counterexample: in the MPMC bounded flavor, with every other
`Channel` clone dropped (one clone made and dropped again, leaving only
the calling endpoint) and no value ever sent, `recv_async` returns
`Empty`, not `Disconnected` as the claim states for every flavor. -/
theorem C1_mpmc_empty_counterexample :
    ¬ ((MpmcBounded.recv_async
          (MpmcBounded.remove_peer (MpmcBounded.add_peer (MpmcBounded.new Nat 1)))).1 =
        .error .Disconnected) := by decide

/-- C1 (amended): after every sending endpoint has been dropped and no
value was ever sent, `recv_async` returns `Disconnected` for the SPSC
one-slot, SPSC bounded, SPSC unbounded, SPSC overwriting ring-buffer,
SPMC bounded, SPMC unbounded and MPSC unbounded flavors; for the MPMC
bounded flavor, whose packet has no disconnect flag, `recv_async`
returns `Empty` even after all other `Channel` clones are dropped. -/
theorem C1_recv_async_after_all_senders_dropped :
    (SpscOneSpace.recv_async
      (SpscOneSpace.sender_disconnect (SpscOneSpace.new Nat))).1 =
        .error .Disconnected ∧
    (SpscBounded.recv_async
      (SpscBounded.disconnect_sender (SpscBounded.new Nat 1))).1 =
        .error .Disconnected ∧
    (SpscUnbounded.recv_async
      (SpscUnbounded.disconnect_sender (SpscUnbounded.new Nat))).1 =
        .error .Disconnected ∧
    (SpscRingBuf.recv_async
      (SpscRingBuf.disconnect_sender (SpscRingBuf.new Nat 1))).1 =
        .error .Disconnected ∧
    (SpmcBoundedFast.recv_async
      (SpmcBoundedFast.remove_sender (SpmcBoundedFast.new Nat 1))).1 =
        .error .Disconnected ∧
    (SpmcUnbounded.recv_async
      (SpmcUnbounded.remove_sender (SpmcUnbounded.new Nat))).1 =
        .error .Disconnected ∧
    (MpscUnbounded.recv_async
      (MpscUnbounded.remove_sender (MpscUnbounded.new Nat))).1 =
        .error .Disconnected ∧
    (MpmcBounded.recv_async
      (MpmcBounded.remove_peer (MpmcBounded.add_peer (MpmcBounded.new Nat 1)))).1 =
        .error .Empty := by decide

/-- C2: the `wait_timeout` timed branch is inverted.  With one
registered selectable (id 7) that is not ready at entry, a finite
duration, and the selectable becoming ready before the timeout (the
condvar wait returns not-timed-out with the ready list `[7]`), the code
returns `None` — the value its own documentation reserves for an
expired timeout — instead of the filled prefix `[7]`; when the timeout
does expire it returns `Some` of the (empty) ready-list prefix. -/
theorem C2_wait_timeout_inverted_check :
    SelectModel.wait_timeout { wait_list := [7], ready_list := [] }
        (fun _ => true) 1 (some 100) false [7] = none ∧
    SelectModel.wait_timeout { wait_list := [7], ready_list := [] }
        (fun _ => true) 1 (some 100) true [] = some [] ∧
    (none : Option (List Nat)) ≠ some [7] := by decide

/-- C3 counterexample: overwriting ring buffer of capacity 1; two sends
(the second displacing the first) and no receives.  The destructor
count is 1, but the claim's formula `sends - receives + displaced`
gives 3. -/
theorem C3_ring_buf_formula_counterexample :
    (SpscRingBuf.run (SpscRingBuf.new Nat 1) [.send 10, .send 20]).2.1 = 2 ∧
    (SpscRingBuf.run (SpscRingBuf.new Nat 1) [.send 10, .send 20]).2.2.1 = 0 ∧
    (SpscRingBuf.run (SpscRingBuf.new Nat 1) [.send 10, .send 20]).2.2.2 = 1 ∧
    SpscRingBuf.drop_count
      (SpscRingBuf.run (SpscRingBuf.new Nat 1) [.send 10, .send 20]).1 = 1 ∧
    ¬ (SpscRingBuf.drop_count
        (SpscRingBuf.run (SpscRingBuf.new Nat 1) [.send 10, .send 20]).1 =
      (SpscRingBuf.run (SpscRingBuf.new Nat 1) [.send 10, .send 20]).2.1 -
        (SpscRingBuf.run (SpscRingBuf.new Nat 1) [.send 10, .send 20]).2.2.1 +
        (SpscRingBuf.run (SpscRingBuf.new Nat 1) [.send 10, .send 20]).2.2.2) := by
  decide

/-- C3 (amended): when the packet is destroyed after an arbitrary
operation history, the number of destructors run on buffered values
equals successful sends minus successful receives for the bounded SPSC
and bounded MPMC flavors, and successful sends minus successful
receives MINUS the values displaced on overflow for the overwriting
ring buffer: a displaced value is handed back to the sender by `send`,
so the packet never destroys it. -/
theorem C3_drop_count_amended (bs : Nat) (hbs : nextPow2 bs < HP)
    (opsB : List (SpscBounded.Op Nat)) (opsR : List (SpscRingBuf.Op Nat))
    (opsM : List (MpmcBounded.Op Nat)) :
    (SpscBounded.drop_count (SpscBounded.run (SpscBounded.new Nat bs) opsB).1 =
      (SpscBounded.run (SpscBounded.new Nat bs) opsB).2.1 -
        (SpscBounded.run (SpscBounded.new Nat bs) opsB).2.2) ∧
    (SpscRingBuf.drop_count (SpscRingBuf.run (SpscRingBuf.new Nat bs) opsR).1 =
      (SpscRingBuf.run (SpscRingBuf.new Nat bs) opsR).2.1 -
        (SpscRingBuf.run (SpscRingBuf.new Nat bs) opsR).2.2.1 -
        (SpscRingBuf.run (SpscRingBuf.new Nat bs) opsR).2.2.2) ∧
    (MpmcBounded.drop_count (MpmcBounded.run (MpmcBounded.new Nat bs) opsM).1 =
      (MpmcBounded.run (MpmcBounded.new Nat bs) opsM).2.1 -
        (MpmcBounded.run (MpmcBounded.new Nat bs) opsM).2.2) := by
  have hU : nextPow2 bs < USIZE := by
    have : HP < USIZE := by norm_num [HP, USIZE, HPBITS]
    omega
  exact ⟨(SpscBounded.bounded_drop_count_eq bs hU opsB).2,
    (SpscRingBuf.ring_drop_count_eq bs hU opsR).2,
    (MpmcBounded.mpmc_drop_count_eq bs hbs opsM).2⟩

/-- C3 witness: capacity request 1 with one send per flavor. -/
theorem C3_drop_count_amended_witness :
    nextPow2 1 < HP ∧
    SpscRingBuf.drop_count
        (SpscRingBuf.run (SpscRingBuf.new Nat 1) [.send 5, .send 6]).1 =
      (SpscRingBuf.run (SpscRingBuf.new Nat 1) [.send 5, .send 6]).2.1 -
        (SpscRingBuf.run (SpscRingBuf.new Nat 1) [.send 5, .send 6]).2.2.1 -
        (SpscRingBuf.run (SpscRingBuf.new Nat 1) [.send 5, .send 6]).2.2.2 :=
  ⟨by decide,
   (C3_drop_count_amended 1 (by decide) [.send 5] [.send 5, .send 6] [.send 5]).2.1⟩

end Comm

namespace Comm

/-- C4: in every state of the bounded MPMC packed counter words
reachable under the constructor capacity bound, `next_write -
read_start` is at most the capacity and `next_read` is at most
`write_end`; the wrapping half-pointer subtraction of the stored halves
computes exactly those abstract differences (the wrap-aware reading);
and every one of the four operations (`get_write_pos`,
`set_write_end`, `get_read_pos`, `set_read_start`) only ever increases
each of the four counters. -/
theorem C4_mpmc_packed_counter_invariants (cm : Nat)
    (hcm : cm + 1 ≤ 2 ^ (HPBITS - 1)) (c c2 : MpmcBounded.Ctrs)
    (hr : MpmcBounded.Reachable cm c) :
    c.next_write ≤ c.read_start + (cm + 1) ∧
    c.next_read ≤ c.write_end ∧
    wsub HP (MpmcBounded.decompose_pointer (MpmcBounded.rsnwWord c)).2
        (MpmcBounded.decompose_pointer (MpmcBounded.rsnwWord c)).1 =
      c.next_write - c.read_start ∧
    wsub HP (MpmcBounded.decompose_pointer (MpmcBounded.wenrWord c)).1
        (MpmcBounded.decompose_pointer (MpmcBounded.wenrWord c)).2 =
      c.write_end - c.next_read ∧
    (MpmcBounded.Step c c2 →
      c.read_start ≤ c2.read_start ∧ c.next_write ≤ c2.next_write ∧
      c.write_end ≤ c2.write_end ∧ c.next_read ≤ c2.next_read) := by
  have hhp : cm + 1 < HP := by
    have : (2 : Nat) ^ (HPBITS - 1) < 2 ^ HPBITS := by
      norm_num [HPBITS]
    unfold HP
    omega
  obtain ⟨hmask, hinv⟩ := MpmcBounded.reachable_inv cm hhp c hr
  obtain ⟨h1, h2, h3, h4, hpw, hpr, hnw, hnr⟩ := hinv
  rw [hmask] at h4
  refine ⟨h4, h2, ?_, ?_, ?_⟩
  · rw [MpmcBounded.decompose_rsnwWord]
    simp only
    rw [wsub_mod_args,
      wsub_eq_sub HP c.next_write c.read_start MpmcBounded.hp_pos (by omega) (by omega)]
  · rw [MpmcBounded.decompose_wenrWord]
    simp only
    rw [wsub_mod_args,
      wsub_eq_sub HP c.write_end c.next_read MpmcBounded.hp_pos (by omega) (by omega)]
  · intro hs
    exact MpmcBounded.step_monotone c c2 ⟨h1, h2, h3, by rw [hmask]; exact h4, hpw, hpr, hnw, hnr⟩ hs

/-- C4 witness: capacity 1 (`cap_mask = 0`) at the initial state. -/
theorem C4_mpmc_packed_counter_invariants_witness :
    0 + 1 ≤ 2 ^ (HPBITS - 1) ∧
    (MpmcBounded.ctrsInit 0).next_write ≤
      (MpmcBounded.ctrsInit 0).read_start + (0 + 1) :=
  ⟨by decide,
   (C4_mpmc_packed_counter_invariants 0 (by decide) (MpmcBounded.ctrsInit 0)
     (MpmcBounded.ctrsInit 0) MpmcBounded.Reachable.init).1⟩

/-- C5: a blocked `send_sync`/`recv_sync` loop iteration in the bounded
MPMC packet returns `Deadlock` exactly when its decrement of
`peers_awake` reaches zero (the fetched value was 1) while no peer is
sleeping on the opposite condition variable, and in that case
`peers_awake` is restored to its previous value; and in the
capacity-1 scenario with two consumers blocked in `recv_sync`, no
producers and no other peers, both consumers wake with `Deadlock`
(the second detects it directly; dropping its endpoint wakes the first,
which then detects it too). -/
theorem C5_mpmc_deadlock_detection :
    (∀ pa ss : Nat,
      ((MpmcBounded.recv_sync_block_step pa ss).1 = true ↔ (pa = 1 ∧ ss = 0)) ∧
      (pa = 1 ∧ ss = 0 → (MpmcBounded.recv_sync_block_step pa ss).2 = pa)) ∧
    (∀ pa sr : Nat,
      ((MpmcBounded.send_sync_block_step pa sr).1 = true ↔ (pa = 1 ∧ sr = 0)) ∧
      (pa = 1 ∧ sr = 0 → (MpmcBounded.send_sync_block_step pa sr).2 = pa)) ∧
    (MpmcBounded.scenRun MpmcBounded.scenInit MpmcBounded.scenSchedule).thr_a =
      .done true ∧
    (MpmcBounded.scenRun MpmcBounded.scenInit MpmcBounded.scenSchedule).thr_b =
      .dropped true := by
  refine ⟨?_, ?_, by decide, by decide⟩
  · intro pa ss
    constructor
    · unfold MpmcBounded.recv_sync_block_step
      by_cases h : pa = 1 ∧ ss = 0
      · simp [h]
      · simp [h]
    · intro h
      unfold MpmcBounded.recv_sync_block_step
      rw [if_pos h]
      rw [h.1]
      decide
  · intro pa sr
    constructor
    · unfold MpmcBounded.send_sync_block_step
      by_cases h : pa = 1 ∧ sr = 0
      · simp [h]
      · simp [h]
    · intro h
      unfold MpmcBounded.send_sync_block_step
      rw [if_pos h]
      rw [h.1]
      decide

/-- C5 witness: the deadlock branch at `peers_awake = 1` with no
sleeping senders restores `peers_awake`. -/
theorem C5_mpmc_deadlock_detection_witness :
    (1 = 1 ∧ 0 = 0) ∧ (MpmcBounded.recv_sync_block_step 1 0).2 = 1 :=
  ⟨⟨rfl, rfl⟩, (C5_mpmc_deadlock_detection.1 1 0).2 ⟨rfl, rfl⟩⟩

end Comm

namespace Comm

/-- C6: for the overwriting SPSC ring buffer with a live consumer, a
send on a full buffer (wrapped `write - read` equals the capacity)
advances the read counter by one, stores the new value, publishes
`write + 1` and returns `Ok (some displaced)` where `displaced` is the
oldest buffered value; otherwise it returns `Ok none`.  Consequently
for requested capacity 3 (rounded to 4), sending 1..5 returns the
displaced 1, four receives yield 2, 3, 4, 5, and a fifth receive
returns `Empty`. -/
theorem C6_ring_buf_overwrite :
    (∀ (s : SpscRingBuf.Packet Nat) (val : Nat),
      s.receiver_disconnected = false →
      (wsub USIZE s.write_pos s.read_pos = s.cap_mask + 1 →
        SpscRingBuf.send s val =
          (.ok (some (s.buf.getD (s.read_pos &&& s.cap_mask) default)),
           { s with buf := s.buf.set (s.write_pos &&& s.cap_mask) val
                    read_pos := (s.read_pos + 1) % USIZE
                    write_pos := (s.write_pos + 1) % USIZE })) ∧
      (wsub USIZE s.write_pos s.read_pos ≠ s.cap_mask + 1 →
        SpscRingBuf.send s val =
          (.ok none,
           { s with buf := s.buf.set (s.write_pos &&& s.cap_mask) val
                    write_pos := (s.write_pos + 1) % USIZE }))) ∧
    (SpscRingBuf.send ((SpscRingBuf.send ((SpscRingBuf.send ((SpscRingBuf.send
        ((SpscRingBuf.send (SpscRingBuf.new Nat 3) 1).2) 2).2) 3).2) 4).2) 5).1 =
      .ok (some 1) ∧
    (SpscRingBuf.recvList (SpscRingBuf.send ((SpscRingBuf.send ((SpscRingBuf.send
        ((SpscRingBuf.send ((SpscRingBuf.send (SpscRingBuf.new Nat 3) 1).2)
          2).2) 3).2) 4).2) 5).2 4).1 =
      [.ok 2, .ok 3, .ok 4, .ok 5] ∧
    (SpscRingBuf.recv_async
      (SpscRingBuf.recvList (SpscRingBuf.send ((SpscRingBuf.send ((SpscRingBuf.send
        ((SpscRingBuf.send ((SpscRingBuf.send (SpscRingBuf.new Nat 3) 1).2)
          2).2) 3).2) 4).2) 5).2 4).2).1 = .error .Empty := by
  refine ⟨?_, by decide, by decide, by decide⟩
  intro s val hd
  have hd2 : ¬ (s.receiver_disconnected = true) := by rw [hd]; simp
  constructor
  · intro hful
    simp only [SpscRingBuf.send, SpscRingBuf.get_pos]
    rw [if_neg hd2, if_neg (fun hne => hne hful)]
  · intro hful
    simp only [SpscRingBuf.send, SpscRingBuf.get_pos]
    rw [if_neg hd2, if_pos hful]

/-- C6 witness: a full capacity-1 buffer holding 42; sending 7
displaces and returns 42. -/
theorem C6_ring_buf_overwrite_witness :
    wsub USIZE 1 0 = 0 + 1 ∧
    SpscRingBuf.send
        { cap_mask := 0, buf := [42], read_pos := 0, write_pos := 1,
          sender_disconnected := false, receiver_disconnected := false } 7 =
      (.ok (some 42),
       { cap_mask := 0, buf := [7], read_pos := 1 % USIZE, write_pos := 2 % USIZE,
         sender_disconnected := false, receiver_disconnected := false }) := by
  refine ⟨by decide, ?_⟩
  have h := (C6_ring_buf_overwrite.1
    { cap_mask := 0, buf := [42], read_pos := 0, write_pos := 1,
      sender_disconnected := false, receiver_disconnected := false } 7 rfl).1
    (by decide)
  simpa using h

/-- C7: for the SPSC bounded ring of power-of-two capacity `k = 2^e`
starting empty with both endpoints live, `k` sends all succeed, a
`(k+1)`-th `send_async` returns `Full` handing the value back with the
packet state unchanged, `k` receives return exactly the sent values in
order, and one further receive returns `Empty`. -/
theorem C7_spsc_bounded_roundtrip (e : Nat) (he : e ≤ 63) (vs : List Nat)
    (hlen : vs.length = 2 ^ e) (v : Nat) :
    (SpscBounded.sendList (SpscBounded.new Nat (2 ^ e)) vs).1 = true ∧
    SpscBounded.send_async (SpscBounded.sendList (SpscBounded.new Nat (2 ^ e)) vs).2 v =
      (.error (v, .Full), (SpscBounded.sendList (SpscBounded.new Nat (2 ^ e)) vs).2) ∧
    (SpscBounded.recvList (SpscBounded.sendList (SpscBounded.new Nat (2 ^ e)) vs).2
        vs.length).1 = vs.map Except.ok ∧
    (SpscBounded.recv_async
      (SpscBounded.recvList (SpscBounded.sendList (SpscBounded.new Nat (2 ^ e)) vs).2
        vs.length).2).1 = .error .Empty := by
  have hfill := SpscBounded.roundtrip_fill e he vs (le_of_eq hlen)
  have hdrain := SpscBounded.roundtrip_drain e he vs (le_of_eq hlen) false
  refine ⟨?_, ?_, ?_, ?_⟩
  · rw [hfill]
  · rw [hfill]
    exact SpscBounded.send_async_full e he _ v rfl rfl (by simpa using hlen) rfl
  · rw [hfill]
    simp only [hdrain]
  · rw [hfill]
    simp only [hdrain]
    rw [SpscBounded.recv_async_drained _ rfl]
    simp

/-- C7 witness: capacity 2 with values 8, 9. -/
theorem C7_spsc_bounded_roundtrip_witness :
    ([8, 9] : List Nat).length = 2 ^ 1 ∧
    (SpscBounded.recvList
        (SpscBounded.sendList (SpscBounded.new Nat (2 ^ 1)) [8, 9]).2
        ([8, 9] : List Nat).length).1 = ([8, 9] : List Nat).map Except.ok :=
  ⟨by decide, (C7_spsc_bounded_roundtrip 1 (by decide) [8, 9] (by decide) 7).2.2.1⟩

end Comm

namespace Comm

/-- The code's MPMC panic condition agrees with the specification's
phrasing at any positive pointer width. -/
theorem mpmc_panics_eq_spec (w bs st : Nat) (hw : 0 < w) :
    mpmc_new_panics w bs st = spec_mpmc_new_panics w bs st := by
  unfold mpmc_new_panics spec_mpmc_new_panics
  by_cases h1 : bs > 2 ^ (w / 2 - 1)
  · simp [h1]
  · have hpow : (2 : Nat) ^ (w - 1) < 2 ^ w :=
      Nat.pow_lt_pow_right (by norm_num) (by omega)
    have hpos : (0 : Nat) < 2 ^ (w - 1) := Nat.pos_pow_of_pos _ (by norm_num)
    have h1d : decide (bs > 2 ^ (w / 2 - 1)) = false := by simp [h1]
    simp only [h1, if_false, h1d, decide_False, Bool.false_or]
    by_cases h3 : nextPow2 bs * st < 2 ^ w
    · simp only [h3, if_pos]
      rw [decide_eq_decide]
      omega
    · simp only [h3, if_false]
      rw [decide_eq_decide]
      omega

/-- C8: the bounded MPMC constructor panics exactly when the requested
capacity exceeds `2^15` on 32-bit builds or `2^31` on 64-bit builds, or
the allocation size `next_power_of_two(cap) * sizeof(T)` overflows the
maximum allocation size; the other bounded constructors do not enforce
the half-pointer capacity limit (shown at a capacity just above it,
where MPMC panics but SPSC bounded and SPMC bounded do not). -/
theorem C8_capacity_panic_conditions :
    (∀ bs st : Nat, mpmc_new_panics 64 bs st = spec_mpmc_new_panics 64 bs st) ∧
    (∀ bs st : Nat, mpmc_new_panics 32 bs st = spec_mpmc_new_panics 32 bs st) ∧
    mpmc_new_panics 64 (2 ^ 31 + 1) 1 = true ∧
    spsc_bounded_new_panics 64 (2 ^ 31 + 1) 1 = false ∧
    spmc_fast_new_panics 64 (2 ^ 31 + 1) 1 = false ∧
    mpmc_new_panics 32 (2 ^ 15 + 1) 1 = true ∧
    spsc_bounded_new_panics 32 (2 ^ 15 + 1) 1 = false ∧
    spmc_fast_new_panics 32 (2 ^ 15 + 1) 1 = false := by
  refine ⟨fun bs st => mpmc_panics_eq_spec 64 bs st (by norm_num),
    fun bs st => mpmc_panics_eq_spec 32 bs st (by norm_num),
    by decide, by decide, rfl, by decide, by decide, rfl⟩

end Comm

namespace Comm

namespace SelectModel

/-- Splitting a run at an event. -/
theorem runFrom_append (s : Inner) (t1 t2 : List Event) :
    runFrom s (t1 ++ t2) = runFrom (runFrom s t1) t2 := by
  unfold runFrom
  rw [List.foldl_append]

/-- Ids surviving the purge are wait-list members of the purged state. -/
theorem mem_purged (s : Inner) (f : Nat → Bool) (id : Nat)
    (h : id ∈ s.ready_list.filter (fun j => decide (j ∈ s.wait_list) && f j)) :
    id ∈ s.wait_list ∧ id ∈ s.ready_list := by
  have h2 := List.mem_filter.1 h
  refine ⟨?_, h2.1⟩
  have h3 := h2.2
  rw [Bool.and_eq_true] at h3
  exact of_decide_eq_true h3.1

end SelectModel

/-- C9: every id that `Select::wait` (either through its initial purge
or through the post-condvar copy), or `check_ready_list`, stores into
the caller's buffer belongs to a selectable previously passed to
`Select::add` on that `Select` object (counting adds performed while
the waiter was parked); and after `Select::remove(id)` no later wait
yields that id unless it is added again, whatever events precede the
removal and whatever add-free events follow it or interleave with the
wait. -/
theorem C9_select_ids_were_added :
    (∀ (t : List SelectModel.Event) (f : Nat → Bool) (bl : Nat)
        (mid : List SelectModel.Event) (id : Nat),
      id ∈ SelectModel.wait_output (SelectModel.runEvents t) f bl mid →
      SelectModel.mentionsAdd (t ++ mid) id = true) ∧
    (∀ (t : List SelectModel.Event) (f : Nat → Bool) (bl : Nat)
        (out : List Nat) (id : Nat),
      SelectModel.check_ready_list (SelectModel.runEvents t) f bl = some out →
      id ∈ out → SelectModel.mentionsAdd t id = true) ∧
    (∀ (t1 t2 mid : List SelectModel.Event) (f : Nat → Bool) (bl : Nat) (id : Nat),
      SelectModel.mentionsAdd t2 id = false →
      SelectModel.mentionsAdd mid id = false →
      id ∉ SelectModel.wait_output
        (SelectModel.runEvents (t1 ++ SelectModel.Event.remove id :: t2)) f bl mid) := by
  have hfromT : ∀ (t : List SelectModel.Event) (id : Nat),
      (id ∈ (SelectModel.runEvents t).wait_list ∨
        id ∈ (SelectModel.runEvents t).ready_list) →
      SelectModel.mentionsAdd t id = true := by
    intro t id h
    rcases SelectModel.runFrom_mem t SelectModel.innerInit id h with h2 | h2
    · simp [SelectModel.innerInit] at h2
    · exact h2
  have hcrl : ∀ (s : SelectModel.Inner) (f : Nat → Bool) (bl : Nat)
      (out : List Nat) (id : Nat),
      SelectModel.check_ready_list s f bl = some out → id ∈ out →
      id ∈ s.wait_list ∧ id ∈ s.ready_list := by
    intro s f bl out id hsome hmem
    unfold SelectModel.check_ready_list at hsome
    by_cases hz :
        Nat.min bl (s.ready_list.filter
          (fun j => decide (j ∈ s.wait_list) && f j)).length = 0
    · rw [if_pos hz] at hsome
      exact absurd hsome (by simp)
    · rw [if_neg hz] at hsome
      have hout := Option.some.inj hsome
      rw [← hout] at hmem
      have hmem2 := (List.take_sublist _ _).subset hmem
      exact SelectModel.mem_purged s f id hmem2
  refine ⟨?_, ?_, ?_⟩
  · intro t f bl mid id hmem
    unfold SelectModel.wait_output at hmem
    by_cases hempty : (SelectModel.runEvents t).wait_list.isEmpty
    · rw [if_pos hempty] at hmem
      exact absurd hmem (by simp)
    · rw [if_neg hempty] at hmem
      rcases hc : SelectModel.check_ready_list (SelectModel.runEvents t) f bl with
        _ | out
      · rw [hc] at hmem
        simp only at hmem
        have hmem2 := (List.take_sublist _ _).subset hmem
        have hrun : SelectModel.runFrom
            (SelectModel.applyEvent (SelectModel.runEvents t)
              (SelectModel.Event.check_ready f)) mid =
            SelectModel.runEvents (t ++ SelectModel.Event.check_ready f :: mid) := by
          unfold SelectModel.runEvents
          rw [SelectModel.runFrom_append]
          rfl
        rw [hrun] at hmem2
        have h3 := hfromT (t ++ SelectModel.Event.check_ready f :: mid) id
          (Or.inr hmem2)
        simp only [SelectModel.mentionsAdd, List.any_append, List.any_cons,
          Bool.or_eq_true] at h3 ⊢
        rcases h3 with h3 | h3 | h3
        · exact Or.inl h3
        · simp [SelectModel.isAddOf] at h3
        · exact Or.inr h3
      · rw [hc] at hmem
        simp only at hmem
        have h2 := hcrl (SelectModel.runEvents t) f bl out id hc hmem
        have h3 := hfromT t id (Or.inl h2.1)
        simp only [SelectModel.mentionsAdd, List.any_append, Bool.or_eq_true] at h3 ⊢
        exact Or.inl h3
  · intro t f bl out id hsome hmem
    exact hfromT t id (Or.inl (hcrl (SelectModel.runEvents t) f bl out id hsome hmem).1)
  · intro t1 t2 mid f bl id h2 hmid hmem
    have hWFinit : SelectModel.WF SelectModel.innerInit :=
      ⟨List.nodup_nil, List.sorted_nil⟩
    have hWF1 : SelectModel.WF (SelectModel.runFrom SelectModel.innerInit t1) :=
      SelectModel.runFrom_WF t1 SelectModel.innerInit hWFinit
    have hsplit : SelectModel.runEvents (t1 ++ SelectModel.Event.remove id :: t2) =
        SelectModel.runFrom
          (SelectModel.applyEvent (SelectModel.runFrom SelectModel.innerInit t1)
            (SelectModel.Event.remove id)) t2 := by
      unfold SelectModel.runEvents
      rw [SelectModel.runFrom_append]
      rfl
    have hnw0 : id ∉ (SelectModel.applyEvent
        (SelectModel.runFrom SelectModel.innerInit t1)
        (SelectModel.Event.remove id)).wait_list :=
      SelectModel.remove_not_mem_wait _ id hWF1.1
    have hnw : id ∉
        (SelectModel.runEvents (t1 ++ SelectModel.Event.remove id :: t2)).wait_list := by
      rw [hsplit]
      exact SelectModel.runFrom_wait_not_mem t2 _ id hnw0 h2
    unfold SelectModel.wait_output at hmem
    by_cases hempty :
        (SelectModel.runEvents (t1 ++ SelectModel.Event.remove id :: t2)).wait_list.isEmpty
    · rw [if_pos hempty] at hmem
      exact absurd hmem (by simp)
    · rw [if_neg hempty] at hmem
      rcases hc : SelectModel.check_ready_list
          (SelectModel.runEvents (t1 ++ SelectModel.Event.remove id :: t2)) f bl with
        _ | out
      · rw [hc] at hmem
        simp only at hmem
        have hmem2 := (List.take_sublist _ _).subset hmem
        have hnotafter : id ∉ (SelectModel.applyEvent
            (SelectModel.runEvents (t1 ++ SelectModel.Event.remove id :: t2))
            (SelectModel.Event.check_ready f)).wait_list ∧
            id ∉ (SelectModel.applyEvent
              (SelectModel.runEvents (t1 ++ SelectModel.Event.remove id :: t2))
              (SelectModel.Event.check_ready f)).ready_list := by
          refine ⟨hnw, ?_⟩
          intro hcc
          exact hnw (SelectModel.mem_purged _ f id hcc).1
        have := SelectModel.runFrom_not_mem mid _ id hnotafter.1 hnotafter.2 hmid
        exact this.2 hmem2
      · rw [hc] at hmem
        simp only at hmem
        exact hnw (hcrl _ f bl out id hc hmem).1

/-- C9 witness: a single added and ready selectable is returned and was
indeed added. -/
theorem C9_select_ids_were_added_witness :
    7 ∈ SelectModel.wait_output
        (SelectModel.runEvents [SelectModel.Event.add 7 true])
        (fun _ => true) 1 [] ∧
    SelectModel.mentionsAdd ([SelectModel.Event.add 7 true] ++ []) 7 = true :=
  ⟨by decide,
   C9_select_ids_were_added.1 [SelectModel.Event.add 7 true]
     (fun _ => true) 1 [] 7 (by decide)⟩

end Comm

namespace Comm

/-- C10: for the flavors that latch a sender-disconnect state (shown
for the cited SPSC bounded, SPSC unbounded and MPSC unbounded
implementations), `recv_async` reports `Disconnected` only on an empty
buffer; every value successfully sent before the sender disconnected
remains receivable afterwards in order, and only once those values are
drained does `recv_async` return `Disconnected`. -/
theorem C10_disconnected_only_when_drained :
    (∀ s : SpscBounded.Packet Nat,
      (SpscBounded.recv_async s).1 = .error .Disconnected →
      s.write_pos = s.read_pos) ∧
    (∀ e : Nat, e ≤ 63 → ∀ vs : List Nat, vs.length ≤ 2 ^ e →
      (SpscBounded.sendList (SpscBounded.new Nat (2 ^ e)) vs).1 = true ∧
      (SpscBounded.recvList
        (SpscBounded.disconnect_sender
          (SpscBounded.sendList (SpscBounded.new Nat (2 ^ e)) vs).2)
        vs.length).1 = vs.map Except.ok ∧
      (SpscBounded.recv_async
        (SpscBounded.recvList
          (SpscBounded.disconnect_sender
            (SpscBounded.sendList (SpscBounded.new Nat (2 ^ e)) vs).2)
          vs.length).2).1 = .error .Disconnected) ∧
    (∀ s : SpscUnbounded.Packet Nat,
      (SpscUnbounded.recv_async s).1 = .error .Disconnected → s.queue = []) ∧
    (∀ (q : List Nat) (s : SpscUnbounded.Packet Nat), s.queue = q →
      s.sender_disconnected = true →
      (SpscUnbounded.recvList s (q.length + 1)).1 =
        q.map Except.ok ++ [.error .Disconnected]) ∧
    (∀ s : MpscUnbounded.Packet Nat,
      (MpscUnbounded.recv_async s).1 = .error .Disconnected → s.queue = []) ∧
    (∀ (q : List Nat) (s : MpscUnbounded.Packet Nat), s.queue = q →
      s.num_senders = 0 →
      (MpscUnbounded.recvList s (q.length + 1)).1 =
        q.map Except.ok ++ [.error .Disconnected]) := by
  refine ⟨?_, ?_, ?_, ?_, ?_, ?_⟩
  · intro s h
    by_cases hwr : s.write_pos = s.read_pos
    · exact hwr
    · exfalso
      simp [SpscBounded.recv_async, SpscBounded.get_pos, hwr] at h
  · intro e he vs hlen
    have hfill := SpscBounded.roundtrip_fill e he vs hlen
    have hdrain := SpscBounded.roundtrip_drain e he vs hlen true
    refine ⟨by rw [hfill], ?_, ?_⟩
    · rw [hfill]
      simp only [SpscBounded.disconnect_sender]
      simp only [hdrain]
    · rw [hfill]
      simp only [SpscBounded.disconnect_sender]
      simp only [hdrain]
      rw [SpscBounded.recv_async_drained _ rfl]
      simp
  · intro s h
    match hq : s.queue with
    | [] => rfl
    | v :: rest =>
      exfalso
      simp [SpscUnbounded.recv_async, hq] at h
  · intro q s hq hsd
    rw [SpscUnbounded.recvList_drain_spsc q s hq hsd]
  · intro s h
    match hq : s.queue with
    | [] => rfl
    | v :: rest =>
      exfalso
      simp [MpscUnbounded.recv_async, hq] at h
  · intro q s hq hsd
    rw [MpscUnbounded.recvList_drain_mpsc q s hq hsd]

/-- C10 witness: an empty disconnected SPSC bounded packet reports
`Disconnected`, hence its positions are equal. -/
theorem C10_disconnected_only_when_drained_witness :
    (SpscBounded.recv_async
      { cap_mask := 0, buf := [0], read_pos := 5, write_pos := 5,
        sender_disconnected := true,
        receiver_disconnected := false : SpscBounded.Packet Nat }).1 =
      .error .Disconnected ∧
    ({ cap_mask := 0, buf := [0], read_pos := 5, write_pos := 5,
       sender_disconnected := true,
       receiver_disconnected := false : SpscBounded.Packet Nat }).write_pos =
    ({ cap_mask := 0, buf := [0], read_pos := 5, write_pos := 5,
       sender_disconnected := true,
       receiver_disconnected := false : SpscBounded.Packet Nat }).read_pos :=
  ⟨by decide, C10_disconnected_only_when_drained.1 _ (by decide)⟩

end Comm
